import Mathlib

/-!
Verification development for the LLM adapter (`aios/llm_core/adapter.py`).

Strings are modelled as `List Char`.  Python's `json` module and the two
fixed regular expressions used by `LLMAdapter.parse_json_format` are given
executable models below; the adapter's own functions
(`parse_json_format`, `parse_tool_calls`, `pre_process_tools`,
`tool_calling_input_format`, `address_syscall`, and the backend-name
resolution loop of `__init__`) are translated line by line from the source.
Collaborators that live outside the repository (the routing strategy, the
backend completion call, the context store and the id generator) are
supplied through an environment record, and Python exceptions are modelled
with an `Except` monad carrying the text `str(e)` would produce.

Modelled fragment boundaries (documented, not load-bearing for the claims):
JSON numbers are integers (no floats), string escapes cover the common
single-character escapes (no \uXXXX), and non-ASCII output escaping of
`json.dumps` is not modelled; all concrete inputs below stay inside this
fragment.
-/

/-- The `\x7b` character; kept out of literals so that braces never appear
inside strings. -/
def lbrace : Char := Char.ofNat 123

/-- The `\x7d` character. -/
def rbrace : Char := Char.ofNat 125

/-- The ASCII apostrophe, used by Python in `str(KeyError(...))`. -/
def squote : Char := Char.ofNat 39

/-- Whitespace accepted by Python's `json` parser (space, tab, newline,
carriage return). -/
def isJsonWs (c : Char) : Bool :=
  c = ' ' || c = '\t' || c = '\n' || c = '\r'

/-- Whitespace matched by `\s` in Python's `re` module (additionally form
feed and vertical tab). -/
def isReWs (c : Char) : Bool :=
  c = ' ' || c = '\t' || c = '\n' || c = '\r' || c = Char.ofNat 11 || c = Char.ofNat 12

/-- Drop leading JSON whitespace. -/
def skipWs (l : List Char) : List Char := l.dropWhile isJsonWs

/-- JSON values as produced by `json.loads`: objects keep their key order
(insertion order of the underlying Python dict). -/
inductive Json where
  | null
  | bool (b : Bool)
  | num (n : Int)
  | str (s : List Char)
  | arr (elems : List Json)
  | obj (entries : List (List Char × Json))

/-- Python dict assignment `d[k] = v`: replace the value at an existing key
in place, otherwise append the new key at the end. -/
def objSet : List (List Char × Json) → List Char → Json → List (List Char × Json)
  | [], k, v => [(k, v)]
  | (k', v') :: t, k, v => if k' = k then (k', v) :: t else (k', v') :: objSet t k v

/-- Python dict lookup `d[k]` (as an `Option`). -/
def objLookup : List (List Char × Json) → List Char → Option Json
  | [], _ => none
  | (k', v) :: t, k => if k' = k then some v else objLookup t k

/-- Python dict `d.pop(k)`: remove the entry with the given key. -/
def objRemove : List (List Char × Json) → List Char → List (List Char × Json)
  | [], _ => []
  | (k', v) :: t, k => if k' = k then t else (k', v) :: objRemove t k

/-- One hexadecimal digit. -/
def hexDig (n : Nat) : Char :=
  if n < 10 then Char.ofNat (48 + n) else Char.ofNat (87 + n)

/-- `json.dumps` escaping of a single character (common escapes; non-ASCII
characters are outside the modelled fragment and passed through). -/
def escChar (c : Char) : List Char :=
  if c = '"' then ['\\', '"']
  else if c = '\\' then ['\\', '\\']
  else if c = '\n' then ['\\', 'n']
  else if c = '\t' then ['\\', 't']
  else if c = '\r' then ['\\', 'r']
  else if c.toNat = 8 then ['\\', 'b']
  else if c.toNat = 12 then ['\\', 'f']
  else if c.toNat < 32 then ['\\', 'u', '0', '0', hexDig (c.toNat / 16), hexDig (c.toNat % 16)]
  else [c]

/-- Body of a dumped JSON string. -/
def escBody (s : List Char) : List Char := s.foldr (fun c acc => escChar c ++ acc) []

/-- A dumped JSON string with its quotes. -/
def escStr (s : List Char) : List Char := '"' :: escBody s ++ ['"']

/-- Decimal rendering of an integer, as Python prints it. -/
def intDumps (n : Int) : List Char :=
  if n < 0 then '-' :: Nat.toDigits 10 n.natAbs else Nat.toDigits 10 n.toNat

mutual

/-- `json.dumps` with its default separators `", "` and `": "`. -/
def jsonDumps : Json → List Char
  | .null => "null".toList
  | .bool true => "true".toList
  | .bool false => "false".toList
  | .num n => intDumps n
  | .str s => escStr s
  | .arr xs => '[' :: dumpsElems xs ++ [']']
  | .obj kvs => lbrace :: dumpsEntries kvs ++ [rbrace]

/-- Array elements joined by `", "`. -/
def dumpsElems : List Json → List Char
  | [] => []
  | [x] => jsonDumps x
  | x :: y :: t => jsonDumps x ++ ',' :: ' ' :: dumpsElems (y :: t)

/-- Object entries joined by `", "`, each rendered `"key": value`. -/
def dumpsEntries : List (List Char × Json) → List Char
  | [] => []
  | [(k, v)] => escStr k ++ ':' :: ' ' :: jsonDumps v
  | (k, v) :: e :: t => escStr k ++ ':' :: ' ' :: jsonDumps v ++ ',' :: ' ' :: dumpsEntries (e :: t)

end

/-- Decode a single-character JSON string escape (the common ones;
`\uXXXX` is outside the modelled fragment). -/
def escDecode (e : Char) : Option Char :=
  if e = '"' then some '"'
  else if e = '\\' then some '\\'
  else if e = '/' then some '/'
  else if e = 'n' then some '\n'
  else if e = 't' then some '\t'
  else if e = 'r' then some '\r'
  else if e = 'b' then some (Char.ofNat 8)
  else if e = 'f' then some (Char.ofNat 12)
  else none

/-- Parse the body of a JSON string (after the opening quote), returning the
decoded characters and the rest of the input after the closing quote; the
flag records a pending backslash.  Mirrors Python: raw control characters
are invalid and the common single-character escapes are decoded. -/
def parseStrAux : Bool → List Char → Option (List Char × List Char)
  | _, [] => none
  | true, e :: t =>
    match escDecode e with
    | some d => (parseStrAux false t).map (fun p => (d :: p.1, p.2))
    | none => none
  | false, c :: t =>
    if c = '"' then some ([], t)
    else if c = '\\' then parseStrAux true t
    else if c.toNat < 32 then none
    else (parseStrAux false t).map (fun p => (c :: p.1, p.2))

/-- The string-body parser proper. -/
def parseStrBody (l : List Char) : Option (List Char × List Char) := parseStrAux false l

/-- Digit run to a natural number. -/
def digitsVal (l : List Char) : Nat :=
  l.foldl (fun acc c => 10 * acc + (c.toNat - 48)) 0

/-- Parse a JSON integer (floats and exponents are outside the modelled
fragment and rejected). -/
def parseNum (l : List Char) : Option (Int × List Char) :=
  let (neg, l') := match l with
    | c :: t => if c = '-' then (true, t) else (false, l)
    | [] => (false, l)
  let digs := l'.takeWhile (fun c => c.isDigit)
  let rest := l'.dropWhile (fun c => c.isDigit)
  if digs.isEmpty then none
  else
    match rest with
    | c :: _ => if c = '.' || c = 'e' || c = 'E' then none
        else some (if neg then -(digitsVal digs : Int) else (digitsVal digs : Int), rest)
    | [] => some (if neg then -(digitsVal digs : Int) else (digitsVal digs : Int), rest)

mutual

/-- Recursive-descent JSON value parser (fuel-indexed; the fuel used by
`jsonLoads` is always sufficient).  Expects its input with leading
whitespace already skipped. -/
def parseValue : Nat → List Char → Option (Json × List Char)
  | 0, _ => none
  | fuel + 1, l =>
    match l with
    | [] => none
    | c :: t =>
      if c = lbrace then
        let t' := skipWs t
        match t' with
        | d :: t'' => if d = rbrace then some (Json.obj [], t'') else parseEntries fuel t' []
        | [] => none
      else if c = '[' then
        let t' := skipWs t
        match t' with
        | d :: t'' => if d = ']' then some (Json.arr [], t'') else parseElems fuel t' []
        | [] => none
      else if c = '"' then
        (parseStrBody t).map (fun p => (Json.str p.1, p.2))
      else if c = 't' then
        if "rue".toList.isPrefixOf t then some (Json.bool true, t.drop 3) else none
      else if c = 'f' then
        if "alse".toList.isPrefixOf t then some (Json.bool false, t.drop 4) else none
      else if c = 'n' then
        if "ull".toList.isPrefixOf t then some (Json.null, t.drop 3) else none
      else
        (parseNum l).map (fun p => (Json.num p.1, p.2))

/-- Array elements: positioned at the start of an element. -/
def parseElems : Nat → List Char → List Json → Option (Json × List Char)
  | 0, _, _ => none
  | fuel + 1, l, acc =>
    match parseValue fuel l with
    | none => none
    | some (v, r) =>
      match skipWs r with
      | c :: r' =>
        if c = ',' then parseElems fuel (skipWs r') (acc ++ [v])
        else if c = ']' then some (Json.arr (acc ++ [v]), r')
        else none
      | [] => none

/-- Object entries: positioned at the start of a key string.  Duplicate keys
follow Python: the first position wins, the last value wins. -/
def parseEntries : Nat → List Char → List (List Char × Json) → Option (Json × List Char)
  | 0, _, _ => none
  | fuel + 1, l, acc =>
    match l with
    | c :: t =>
      if c = '"' then
        match parseStrBody t with
        | none => none
        | some (k, r1) =>
          match skipWs r1 with
          | d :: r2 =>
            if d = ':' then
              match parseValue fuel (skipWs r2) with
              | none => none
              | some (v, r3) =>
                let acc' := objSet acc k v
                match skipWs r3 with
                | e :: r4 =>
                  if e = ',' then parseEntries fuel (skipWs r4) acc'
                  else if e = rbrace then some (Json.obj acc', r4)
                  else none
                | [] => none
            else none
          | [] => none
      else none
    | [] => none

end

/-- `json.loads`: parse with trailing-garbage check (Python raises
`JSONDecodeError` on extra data; the model returns `none`). -/
def jsonLoads (l : List Char) : Option Json :=
  match parseValue (2 * l.length + 2) (skipWs l) with
  | some (v, rest) => if skipWs rest = [] then some v else none
  | none => none

/-- Does `pat` start `l`?  Written with `if`-equalities so that `simp` can
evaluate it step by step on partially symbolic inputs. -/
def listStarts : List Char → List Char → Bool
  | [], _ => true
  | _ :: _, [] => false
  | c :: p, d :: l => if c = d then listStarts p l else false

/-- Python `pat in s` (substring containment). -/
def pyIn (pat : List Char) (l : List Char) : Bool :=
  listStarts pat l ||
    match l with
    | [] => false
    | _ :: t => pyIn pat t

/-- Python `s.find(pat)`: index of the leftmost occurrence (as an `Option`;
the code only ever branches on `-1` versus an index, which the `Option`
mirrors). -/
def pyFind (pat : List Char) (l : List Char) : Option Nat :=
  if listStarts pat l then some 0
  else
    match l with
    | [] => none
    | _ :: t => (pyFind pat t).map (· + 1)

/-- Python `s.find(pat, start)`: absolute index of the leftmost occurrence
at or after `start`. -/
def pyFindFrom (pat : List Char) (l : List Char) (start : Nat) : Option Nat :=
  (pyFind pat (l.drop start)).map (· + start)

/-!
The two regular expressions of `parse_json_format`:

  json_array_pattern  = `\[\s*\{.*?\}\s*\]`
  json_object_pattern = `\{\s*.*?\s*\}`

searched with `re.search` (leftmost match, `.` does not match a newline).
Both are modelled by direct scanners proved against the backtracking
semantics: in the array pattern every `\s*` is followed by a literal that is
not whitespace, so greedy whitespace runs are forced, and the lazy `.*?`
takes the shortest extension; in the object pattern the interplay of
`\s*.*?\s*` amounts to: the text strictly between the braces, after
stripping its maximal whitespace margins, contains no newline, and the
engine stops at the first closing brace for which that holds.
-/

/-- Match `\s*\]` at the head of `l`, returning the consumed characters and
the rest.  The whitespace run is forced: `]` is not whitespace. -/
def wsThenCloseBr (l : List Char) : Option (List Char × List Char) :=
  match l.dropWhile isReWs with
  | c :: r' => if c = ']' then some (l.takeWhile isReWs ++ [']'], r') else none
  | [] => none

/-- Match `.*?\}\s*\]` at the head of `l` (lazy: first try to close, then
consume one non-newline character). Returns the consumed characters. -/
def lazyCloseA : List Char → Option (List Char)
  | [] => none
  | c :: t =>
    if c = rbrace then
      match wsThenCloseBr t with
      | some (w, _) => some (c :: w)
      | none => (lazyCloseA t).map (c :: ·)
    else if c = '\n' then none
    else (lazyCloseA t).map (c :: ·)

/-- Match the array pattern `\[\s*\{.*?\}\s*\]` anchored at the head of `l`,
returning the matched substring. -/
def matchArrAt (l : List Char) : Option (List Char) :=
  match l with
  | c :: t =>
    if c = '[' then
      match t.dropWhile isReWs with
      | d :: r' =>
        if d = lbrace then (lazyCloseA r').map (fun m => c :: t.takeWhile isReWs ++ d :: m)
        else none
      | [] => none
    else none
  | [] => none

/-- `re.search` for the array pattern: leftmost anchored match. -/
def searchArr : List Char → Option (List Char)
  | [] =>
    (match matchArrAt [] with
     | some m => some m
     | none => none)
  | c :: t =>
    (match matchArrAt (c :: t) with
     | some m => some m
     | none => searchArr t)

/-- Strip the maximal `\s*` margins of a candidate object interior. -/
def stripWsBoth (l : List Char) : List Char :=
  ((l.dropWhile isReWs).reverse.dropWhile isReWs).reverse

/-- Can `\s*.*?\s*` cover `between`?  Exactly when every newline lies in the
maximal whitespace margins. -/
def objFeasible (between : List Char) : Bool :=
  !(stripWsBoth between).contains '\n'

/-- Scan for the first closing brace whose interior is feasible (the
engine's backtracking order yields the minimal such end). `accRev` holds the
interior seen so far, reversed. -/
def objScan (accRev : List Char) : List Char → Option (List Char)
  | [] => none
  | c :: t =>
    if c = rbrace && objFeasible accRev.reverse then some (accRev.reverse ++ [c])
    else objScan (c :: accRev) t

/-- Match the object pattern `\{\s*.*?\s*\}` anchored at the head of `l`,
returning the matched substring. -/
def matchObjAt (l : List Char) : Option (List Char) :=
  match l with
  | c :: t => if c = lbrace then (objScan [] t).map (c :: ·) else none
  | [] => none

/-- `re.search` for the object pattern: leftmost anchored match. -/
def searchObj : List Char → Option (List Char)
  | [] =>
    (match matchObjAt [] with
     | some m => some m
     | none => none)
  | c :: t =>
    (match matchObjAt (c :: t) with
     | some m => some m
     | none => searchObj t)

/-- Object-pattern fallback of `parse_json_format` (lines 213-223): search
for an object-shaped substring, return its canonical re-serialisation if it
parses, else the `"[]"` sentinel. -/
def objFallback (message : List Char) : List Char :=
  match searchObj message with
  | some sub =>
    match jsonLoads sub with
    | some v => jsonDumps v
    | none => "[]".toList
  | none => "[]".toList

/-- `LLMAdapter.parse_json_format` (lines 198-223): first array-shaped
substring if it parses, else first object-shaped substring if it parses,
else the literal `"[]"`. -/
def parse_json_format (message : List Char) : List Char :=
  match searchArr message with
  | some sub =>
    match jsonLoads sub with
    | some v => jsonDumps v
    | none => objFallback message
  | none => objFallback message

/-- A Python exception, carrying the text `str(e)` produces. -/
structure PyErr where
  msg : List Char
deriving DecidableEq

/-- `str(KeyError(k))`: the key in single quotes. -/
def keyErrText (k : List Char) : List Char := squote :: k ++ [squote]

/-- `str(IndexError(...))` for an out-of-range list subscript. -/
def indexErrText : List Char := "list index out of range".toList

/-- Python `name.split("/")` for the single-character separator. -/
def pySplitSlash : List Char → List (List Char)
  | [] => [[]]
  | c :: t =>
    if c = '/' then [] :: pySplitSlash t
    else
      match pySplitSlash t with
      | h :: r => (c :: h) :: r
      | [] => [[c]]

/-- Python `"__".join(parts)`. -/
def pyJoinDunder : List (List Char) → List Char
  | [] => []
  | [x] => x
  | x :: y :: t => x ++ '_' :: '_' :: pyJoinDunder (y :: t)

/-- The name rewrite of `pre_process_tools` (lines 247-249): if the name
contains the namespace separator `/`, replace it by `__` via
`"__".join(name.split("/"))`. -/
def encodeToolName (s : List Char) : List Char :=
  if s.contains '/' then pyJoinDunder (pySplitSlash s) else s

/-- Python `name.replace("__", "/")` as used by `parse_tool_calls`
(line 240): leftmost, non-overlapping. -/
def decodeToolName : List Char → List Char
  | [] => []
  | [c] => [c]
  | c :: d :: t =>
    if c = '_' then
      if d = '_' then '/' :: decodeToolName t else c :: decodeToolName (d :: t)
    else c :: decodeToolName (d :: t)

/-- `LLMAdapter.pre_process_tools` (lines 244-250): rewrite each tool's
`tool["function"]["name"]`.  Missing keys and non-dict/non-string shapes
raise, modelled as errors. -/
def pre_process_tools : List Json → Except PyErr (List Json)
  | [] => .ok []
  | t :: rest =>
    match t with
    | Json.obj kvs =>
      match objLookup kvs "function".toList with
      | some (Json.obj fkvs) =>
        match objLookup fkvs "name".toList with
        | some (Json.str nm) =>
          let t' :=
            if nm.contains '/' then
              Json.obj (objSet kvs "function".toList
                (Json.obj (objSet fkvs "name".toList (Json.str (encodeToolName nm)))))
            else Json.obj kvs
          match pre_process_tools rest with
          | .ok out => .ok (t' :: out)
          | .error e => .error e
        | some _ => .error ⟨"argument of type is not iterable".toList⟩
        | none => .error ⟨keyErrText "name".toList⟩
      | some _ => .error ⟨"string indices must be integers".toList⟩
      | none => .error ⟨keyErrText "function".toList⟩
    | _ => .error ⟨"tool is not subscriptable".toList⟩

/-- The result of `json.loads(self.parse_json_format(message))` with the
single-dict wrap of `parse_tool_calls` (lines 229-233): a dict becomes a
one-element list. -/
def extractedCalls (message : List Char) : Option (List Json) :=
  match jsonLoads (parse_json_format message) with
  | some (Json.obj kvs) => some [Json.obj kvs]
  | some (Json.arr l) => some l
  | _ => none

/-- The per-call loop of `parse_tool_calls` (lines 235-242): assign
`tool_call["id"]` from the generator, then decode
`tool_call["name"].replace("__", "/")`.  The id generator is modelled as a
function from the call counter; a missing `name` key raises `KeyError`,
a non-dict element or non-string name raises, all carried as errors. -/
def processCalls (gen : Nat → List Char) (k : Nat) : List Json → Except PyErr (List Json)
  | [] => .ok []
  | c :: rest =>
    match c with
    | Json.obj kvs =>
      let kvs1 := objSet kvs "id".toList (Json.str (gen k))
      match objLookup kvs1 "name".toList with
      | some (Json.str nm) =>
        let kvs2 := objSet kvs1 "name".toList (Json.str (decodeToolName nm))
        match processCalls gen (k + 1) rest with
        | .ok out => .ok (Json.obj kvs2 :: out)
        | .error e => .error e
      | some _ => .error ⟨"object has no attribute replace".toList⟩
      | none => .error ⟨keyErrText "name".toList⟩
    | _ => .error ⟨"object does not support item assignment".toList⟩

/-- `LLMAdapter.parse_tool_calls` (lines 225-242). The `none` branch of
`extractedCalls` (re-parse failure or a non-container value) cannot arise
from `parse_json_format` output and is modelled as the error Python's
iteration would raise. -/
def parse_tool_calls (gen : Nat → List Char) (message : List Char) : Except PyErr (List Json) :=
  match extractedCalls message with
  | some l => processCalls gen 0 l
  | none => .error ⟨"object is not iterable".toList⟩

/-- Python `str(v)` for the f-string interpolation in
`tool_calling_input_format`; container `repr` is approximated by the JSON
rendering (no claim depends on it). -/
def pyStr : Json → List Char
  | .str s => s
  | .num n => intDumps n
  | .null => "None".toList
  | .bool true => "True".toList
  | .bool false => "False".toList
  | .arr xs => jsonDumps (Json.arr xs)
  | .obj kvs => jsonDumps (Json.obj kvs)

/-- `prefix_prompt` of `tool_calling_input_format` (lines 169-171). -/
def promptIntro : List Char :=
  "In and only in current step, you need to call tools. Available tools are: ".toList

/-- `suffix_prompt` of `tool_calling_input_format` (lines 173-180). -/
def promptFormat : List Char :=
  ("Must call functions that are available. To call a function, respond immediately and only with a list of JSON object of the following format:[\x7b\"name\":\"function_name_value\",\"parameters\":\x7b\"parameter_name1\":\"parameter_value1\",\"parameter_name2\":\"parameter_value2\"\x7d\x7d]").toList

/-- The per-message rewrite of `tool_calling_input_format` (lines 183-193):
serialise structured `tool_calls` into `content`, turn `tool` messages into
`user` messages carrying the formatted execution result. -/
def rewriteMsg (m : Json) : Except PyErr Json :=
  match m with
  | Json.obj kvs =>
    match objLookup kvs "tool_calls".toList with
    | some tc =>
      .ok (Json.obj (objSet (objRemove kvs "tool_calls".toList) "content".toList
        (Json.str (jsonDumps tc))))
    | none =>
      match objLookup kvs "role".toList with
      | none => .error ⟨keyErrText "role".toList⟩
      | some r =>
        match r with
        | Json.str rs =>
          if rs = "tool".toList then
            let kvs1 := objSet kvs "role".toList (Json.str "user".toList)
            match objLookup kvs1 "tool_call_id".toList with
            | none => .error ⟨keyErrText "tool_call_id".toList⟩
            | some tcid =>
              let kvs2 := objRemove kvs1 "tool_call_id".toList
              match objLookup kvs2 "content".toList with
              | none => .error ⟨keyErrText "content".toList⟩
              | some content =>
                let kvs3 := objRemove kvs2 "content".toList
                .ok (Json.obj (objSet kvs3 "content".toList (Json.str
                  ("The result of the execution of function(id :".toList ++ pyStr tcid ++
                    ") is: ".toList ++ pyStr content ++ ". ".toList))))
          else .ok (Json.obj kvs)
        | _ => .ok (Json.obj kvs)
  | _ => .error ⟨"message is not a dict".toList⟩

/-- The message loop of `tool_calling_input_format`. -/
def rewriteMsgs : List Json → Except PyErr (List Json)
  | [] => .ok []
  | m :: rest =>
    match rewriteMsg m with
    | .error e => .error e
    | .ok m' =>
      match rewriteMsgs rest with
      | .error e => .error e
      | .ok out => .ok (m' :: out)

/-- `LLMAdapter.tool_calling_input_format` (lines 162-196): rewrite the
history, then append the tool instructions to the last message's content
(`messages[-1]["content"] += ...`; an empty history raises `IndexError`). -/
def tool_calling_input_format (messages tools : List Json) : Except PyErr (List Json) :=
  match rewriteMsgs messages with
  | .error e => .error e
  | .ok ms =>
    match ms.getLast? with
    | none => .error ⟨indexErrText⟩
    | some last =>
      match last with
      | Json.obj kvs =>
        match objLookup kvs "content".toList with
        | some (Json.str c) =>
          .ok (ms.dropLast ++ [Json.obj (objSet kvs "content".toList
            (Json.str (c ++ promptIntro ++ jsonDumps (Json.arr tools) ++ promptFormat)))])
        | some _ => .error ⟨"can only concatenate str".toList⟩
        | none => .error ⟨keyErrText "content".toList⟩
      | _ => .error ⟨"message is not a dict".toList⟩

/-- `cerebrum.llm.apis.LLMResponse` as constructed by the dispatcher; every
construction site in `address_syscall` passes `finished` explicitly. -/
structure LLMResponse where
  response_message : Option (List Char) := none
  tool_calls : Option (List Json) := none
  error : Option (List Char) := none
  finished : Bool := false
  status_code : Option Nat := none

/-- A resolved backend handle held in `self.llms`: a remote model string or
one of the three local engine objects. -/
inductive Backend where
  | remote (model : List Char)
  | hfLocal (name : Option (List Char))
  | vllmLocal (name : Option (List Char))
  | ollamaLocal (name : Option (List Char))

/-- `"API key provided:"`, the 17-character search text of the masking code
(line 316). -/
def markColon : List Char := "API key provided:".toList

/-- `"API key provided: "`, whose length (18) offsets `key_start`
(line 317). -/
def markSp : List Char := "API key provided: ".toList

/-- The API-key masking of `address_syscall` (lines 314-324): if the marker
occurs, the key runs to the next `.` (else the next space); keys longer
than 4 keep their first and last two characters around `****`. -/
def maskErr (m : List Char) : List Char :=
  match pyFind markColon m with
  | none => m
  | some i =>
    let keyStart := i + markSp.length
    let keyEnd? :=
      match pyFindFrom ['.'] m keyStart with
      | some k => some k
      | none => pyFindFrom [' '] m keyStart
    match keyEnd? with
    | none => m
    | some keyEnd =>
      let apiKey := (m.drop keyStart).take (keyEnd - keyStart)
      let masked :=
        if 4 < apiKey.length then
          apiKey.take 2 ++ "****".toList ++ apiKey.drop (apiKey.length - 2)
        else "****".toList
      m.take keyStart ++ masked ++ m.drop keyEnd

/-- `"Invalid API key"`, first credential marker of line 326. -/
def errInvalid : List Char := "Invalid API key".toList

/-- `"API key not found"`, second credential marker of line 326. -/
def errNotFound : List Char := "API key not found".toList

/-- The fixed 402 response message (line 328). -/
def resp402text : List Char :=
  "Error: Invalid or missing API key for the selected model.".toList

/-- The inner `except` of `address_syscall` (lines 313-338): mask, classify
as credential error (402) or generic backend error (500). -/
def classifyBackendError (e : PyErr) : LLMResponse :=
  let m := maskErr e.msg
  if pyIn errInvalid m || pyIn errNotFound m then
    { response_message := some resp402text, error := some m,
      finished := true, status_code := some 402 }
  else
    { response_message := some ("LLM Error: ".toList ++ m), error := some m,
      finished := true, status_code := some 500 }

/-- The adapter state and its external collaborators: the resolved backend
list, the configured model list, the routing strategy, the backend
invocation (remote `completion` or local engine call), the context store
outcome, and the tool-call id generator. -/
structure Env where
  llms : List Backend
  llmConfigs : List Json
  strategy : List Json → Except PyErr (List Nat)
  call : Backend → List Json → Except PyErr (List Char)
  restored : Option (List Char)
  gen : Nat → List Char

/-- The request fields read from `llm_syscall.query`. -/
structure Query where
  messages : List Json
  tools : Option (List Json)
  retType : Option (List Char)
  llms : Option (List Json)

/-- Context restoration splice (lines 274-285): a truthy restored context
is appended as an assistant message. -/
def spliceRestored (env : Env) (messages : List Json) : List Json :=
  match env.restored with
  | some ctx =>
    if ctx.isEmpty then messages
    else messages ++ [Json.obj [("role".toList, Json.str "assistant".toList),
      ("content".toList, Json.str ctx)]]
  | none => messages

/-- The `if tools:` block (lines 287-289); a falsy `tools` (absent or empty)
skips both this block and the later parse step, which the `Option` result
records. -/
def toolsStep (qtools : Option (List Json)) (messages : List Json) :
    Except PyErr (Option (List Json) × List Json) :=
  match qtools with
  | none => .ok (none, messages)
  | some ts =>
    if ts.isEmpty then .ok (none, messages)
    else
      match pre_process_tools ts with
      | .error e => .error e
      | .ok ts' =>
        match tool_calling_input_format messages ts' with
        | .error e => .error e
        | .ok ms => .ok (some ts', ms)

/-- `selected_llms = llm_syscall.query.llms if llm_syscall.query.llms else
self.llm_configs` (line 270). -/
def selectedLLMs (env : Env) (q : Query) : List Json :=
  match q.llms with
  | some l => if l.isEmpty then env.llmConfigs else l
  | none => env.llmConfigs

/-- Lines 346-349: optional JSON extraction and the plain-text response. -/
def finishPlain (retType : Option (List Char)) (res : List Char) : LLMResponse :=
  { response_message := some (if retType = some "json".toList then parse_json_format res else res),
    finished := true }

/-- The body of the outer `try` of `address_syscall` (lines 266-349): an
`error` result is an exception reaching the outer handler; the inner
`except` around the backend call returns a classified response instead. -/
def addressSyscallBody (env : Env) (q : Query) : Except PyErr LLMResponse :=
  match toolsStep q.tools (spliceRestored env q.messages) with
  | .error e => .error e
  | .ok (toolsB, messages2) =>
    match env.strategy (selectedLLMs env q) with
    | .error e => .error e
    | .ok modelIdxs =>
      match modelIdxs.head? with
      | none => .error ⟨indexErrText⟩
      | some modelIdx =>
        match env.llms[modelIdx]? with
        | none => .error ⟨indexErrText⟩
        | some model =>
          match env.call model messages2 with
          | .error e => .ok (classifyBackendError e)
          | .ok res =>
            match toolsB with
            | some _ =>
              match parse_tool_calls env.gen res with
              | .error e => .error e
              | .ok tcs =>
                if tcs.isEmpty then .ok (finishPlain q.retType res)
                else .ok { response_message := none, tool_calls := some tcs, finished := true }
            | none => .ok (finishPlain q.retType res)

/-- `LLMAdapter.address_syscall` (lines 252-358): the outer `except` turns
any escaping exception into the `"System Error: "` 500 response. -/
def address_syscall (env : Env) (q : Query) : LLMResponse :=
  match addressSyscallBody env q with
  | .ok r => r
  | .error e =>
    { response_message := some ("System Error: ".toList ++ e.msg), error := some e.msg,
      finished := true, status_code := some 500 }

/-- One entry of `llm_configs` as read by `__init__` (lines 104-105). -/
structure LLMConfig where
  name : Option (List Char)
  backend : Option (List Char)

/-- The backend-resolution loop of `LLMAdapter.__init__` (lines 100-154):
local engines are constructed (hflocal requires the HuggingFace key), a
`none` backend is skipped, any other backend is a remote provider whose
name is prefixed with `"<backend>/"` after the `google`-to-`gemini` remap —
but a name that already carries the prefix is appended nowhere. -/
def resolve_llms (hfKeyPresent : Bool) : List LLMConfig → Except PyErr (List Backend)
  | [] => .ok []
  | cfg :: rest =>
    match cfg.backend with
    | none => resolve_llms hfKeyPresent rest
    | some b =>
      if b = "hflocal".toList then
        if hfKeyPresent then
          match resolve_llms hfKeyPresent rest with
          | .ok out => .ok (Backend.hfLocal cfg.name :: out)
          | .error e => .error e
        else .error ⟨"HUGGING_FACE_API_KEY not found in config or environment variables".toList⟩
      else if b = "vllm".toList then
        match resolve_llms hfKeyPresent rest with
        | .ok out => .ok (Backend.vllmLocal cfg.name :: out)
        | .error e => .error e
      else if b = "ollama".toList then
        match resolve_llms hfKeyPresent rest with
        | .ok out => .ok (Backend.ollamaLocal cfg.name :: out)
        | .error e => .error e
      else
        let b' := if b = "google".toList then "gemini".toList else b
        match cfg.name with
        | none => .error ⟨"NoneType object has no attribute startswith".toList⟩
        | some nm =>
          let pfx := b' ++ ['/']
          if pfx.isPrefixOf nm then resolve_llms hfKeyPresent rest
          else
            match resolve_llms hfKeyPresent rest with
            | .ok out => .ok (Backend.remote (pfx ++ nm) :: out)
            | .error e => .error e

/-!  Concrete environments, queries and constants used by the claim
theorems, their witnesses and counterexamples. -/

/-- Environment whose strategy returns an empty preference list, so that
`model_idxs[0]` raises `IndexError` inside the body. -/
def envIdxW : Env :=
  { llms := [], llmConfigs := [], strategy := fun _ => .ok [],
    call := fun _ _ => .ok [], restored := none, gen := fun _ => [] }

/-- An empty request. -/
def qEmptyW : Query := { messages := [], tools := none, retType := none, llms := none }

/-- A plain user message. -/
def msgUser : Json :=
  Json.obj [("role".toList, Json.str "user".toList), ("content".toList, Json.str "hi".toList)]

/-- A plain request: one user message, no tools, no JSON shaping. -/
def qPlain : Query := { messages := [msgUser], tools := none, retType := none, llms := none }

/-- Environment with one remote backend whose call fails with the given
message. -/
def envBackendFail (msg : List Char) : Env :=
  { llms := [Backend.remote "gpt-4o".toList], llmConfigs := [],
    strategy := fun _ => .ok [0], call := fun _ _ => .error ⟨msg⟩,
    restored := none, gen := fun i => Nat.toDigits 10 i }

/-- Environment with one remote backend whose call succeeds with the given
raw text. -/
def envBackendOk (res : List Char) : Env :=
  { llms := [Backend.remote "gpt-4o".toList], llmConfigs := [],
    strategy := fun _ => .ok [0], call := fun _ _ => .ok res,
    restored := none, gen := fun i => Nat.toDigits 10 i }

/-- The credential-error unified response (lines 327-332). -/
def resp402 (m : List Char) : LLMResponse :=
  { response_message := some resp402text, error := some m,
    finished := true, status_code := some 402 }

/-- The generic backend-error unified response (lines 333-338). -/
def resp500LLM (m : List Char) : LLMResponse :=
  { response_message := some ("LLM Error: ".toList ++ m), error := some m,
    finished := true, status_code := some 500 }

/-- Character-by-character form of the namespace-separator encoding
(`/` to `__`); proved equal to the `split`/`join` of the source. -/
def encChars : List Char → List Char
  | [] => []
  | c :: t => if c = '/' then '_' :: '_' :: encChars t else c :: encChars t

/-- Does the string contain the substring `"__"`? -/
def hasDD : List Char → Bool
  | c :: d :: t => if c = '_' then (if d = '_' then true else hasDD (d :: t)) else hasDD (d :: t)
  | _ => false

/-- Does the string contain the substring `"_/"`? -/
def hasDS : List Char → Bool
  | c :: d :: t => if c = '_' then (if d = '/' then true else hasDS (d :: t)) else hasDS (d :: t)
  | _ => false

/-- The `id` field of a produced tool call. -/
def getId : Json → Option Json
  | .obj kvs => objLookup kvs "id".toList
  | _ => none

/-- Witness id generator: `i + 1` copies of `x` — fresh, non-empty and
globally unique. -/
def genW (i : Nat) : List Char := List.replicate (i + 1) 'x'

/-- Witness raw model text with two duplicate-content tool calls. -/
def msgDupW : List Char := "[\x7b\"name\": \"a\"\x7d, \x7b\"name\": \"a\"\x7d]".toList

/-- A tool definition carrying a namespaced name. -/
def toolTravel : Json :=
  Json.obj [("type".toList, Json.str "function".toList),
    ("function".toList, Json.obj [("name".toList, Json.str "travel/book".toList)])]

/-- A request that supplies the tool. -/
def qTools : Query :=
  { messages := [msgUser], tools := some [toolTravel], retType := none, llms := none }

/-- Witness raw model text whose JSON payload lacks the `name` key. -/
def resW10 : List Char := "[\x7b\"parameters\": 1\x7d]".toList

/-- The masked form of the structured failure message
`"API key provided: <key>.<rest>"`: first two and last two key characters
around `****`, with the period terminator and the tail unchanged. -/
def maskedOf (key rest : List Char) : List Char :=
  markSp ++ (key.take 2 ++ "****".toList ++ key.drop 18) ++ ('.' :: rest)

/-- A 20-character key token for the C3 counterexample. -/
def keyCE3 : List Char := "ABCDEFGHIJKLMNOPQRST".toList

/-- A failure message embedding `keyCE3` without the masking marker
`"API key provided:"`. -/
def msgCE3 : List Char := "Invalid API key: ".toList ++ keyCE3

/-- A 20-character key token (no period, no space) for the C3 witness. -/
def keyW3 : List Char := "sk-ABCDEFGHIJKLMNOPQ".toList

/-- Characters allowed in the symbolic name/key/value strings of the C4
array: at or above space, and none of quote, backslash, closing brace (so
they need no JSON escaping, cannot end the string early, and cannot stop or
end the regex scan). -/
def okStrChar (c : Char) : Bool :=
  !(c == '"') && !(c == '\\') && !(c == rbrace) && decide (32 ≤ c.toNat)

/-- A tool call as structured data: a name and its string parameter pairs. -/
structure ToolSpec where
  name : List Char
  params : List (List Char × List Char)

/-- The parameter pairs as JSON object entries. -/
def paramsPairs (ps : List (List Char × List Char)) : List (List Char × Json) :=
  ps.map (fun pr => (pr.1, Json.str pr.2))

/-- The JSON value of one tool call: `\x7b"name": ..., "parameters": \x7b...\x7d\x7d`. -/
def callVal (t : ToolSpec) : Json :=
  Json.obj [("name".toList, Json.str t.name),
    ("parameters".toList, Json.obj (paramsPairs t.params))]

/-- The JSON value of a tool-call array. -/
def callsVal (l : List ToolSpec) : Json := Json.arr (l.map callVal)

/-- Well-formedness of a tool call for the canonical-extraction theorem: all
strings over `okStrChar`, and pairwise-distinct parameter keys. -/
abbrev okSpec (t : ToolSpec) : Prop :=
  (∀ c ∈ t.name, okStrChar c = true)
  ∧ (∀ pr ∈ t.params, (∀ c ∈ pr.1, okStrChar c = true) ∧ (∀ c ∈ pr.2, okStrChar c = true))
  ∧ (t.params.map Prod.fst).Nodup

/-- The canonical text of the parameter entries — `"k": "v"` joined by
`", "` — written head-explicitly for the scanner and parser proofs. -/
def paramsText : List (List Char × List Char) → List Char
  | [] => []
  | pr :: t => '"' :: (pr.1 ++ '"' :: ':' :: ' ' :: '"' :: (pr.2 ++ '"' ::
      (match t with
       | [] => []
       | _ :: _ => ',' :: ' ' :: paramsText t)))

/-- The interior of a dumped tool-call object: after the opening brace,
before the two closing braces. -/
def callMid (t : ToolSpec) : List Char :=
  '"' :: ("name".toList ++ '"' :: ':' :: ' ' :: '"' :: (t.name ++ '"' :: ',' :: ' ' ::
    '"' :: ("parameters".toList ++ '"' :: ':' :: ' ' :: lbrace :: paramsText t.params)))

/-- The canonical text of one dumped tool-call object. -/
def callText (t : ToolSpec) : List Char := lbrace :: (callMid t ++ [rbrace, rbrace])

/-- The `", "`-separated continuation text of a dumped tool-call list. -/
def sepCallsText : List ToolSpec → List Char
  | [] => []
  | t :: r => ',' :: ' ' :: (callText t ++ sepCallsText r)

/-- Parser fuel sufficient for a dumped tool-call list. -/
def fuelOf : List ToolSpec → Nat
  | [] => 0
  | t :: r => 2 * t.params.length + 6 + fuelOf r

/-- The two-call instance used by the C4 witness: one call with two
parameters, one with none. -/
def callsW4 : List ToolSpec :=
  [⟨"travel__book".toList, [("dest".toList, "NYC".toList), ("when".toList, "today".toList)]⟩,
   ⟨"hotel__find".toList, []⟩]

/-- Counterexample text for C4: a valid tool-call array containing an
embedded newline, inside prose. -/
def nlMsg : List Char := "Sure! [\x7b\"name\":\n\"x\"\x7d] done".toList

/-- The value of the embedded array of `nlMsg`. -/
def nlArr : Json := Json.arr [Json.obj [("name".toList, Json.str "x".toList)]]

/-!  Helper lemmas. -/

theorem classifyBackendError_finished (e : PyErr) : (classifyBackendError e).finished = true := by
  unfold classifyBackendError
  dsimp only
  split <;> rfl

theorem finishPlain_finished (rt : Option (List Char)) (res : List Char) :
    (finishPlain rt res).finished = true := rfl

theorem body_ok_finished (env : Env) (q : Query) (r : LLMResponse)
    (h : addressSyscallBody env q = .ok r) : r.finished = true := by
  unfold addressSyscallBody at h
  repeat' split at h
  all_goals
    first
    | exact Except.noConfusion h
    | (injection h with h'; subst h'; simp [classifyBackendError_finished, finishPlain_finished])

/-!  Claim theorems. -/

/-- Claim C1: any exception escaping the body of the dispatcher is caught at
the outer boundary and converted into the unified response with
`status_code = 500` and `response_message = "System Error: " ++` the
exception text; `address_syscall` is a total function, so nothing is ever
raised across the public boundary. -/
theorem c1_outer_catch_system_error (env : Env) (q : Query) (e : PyErr)
    (h : addressSyscallBody env q = .error e) :
    address_syscall env q =
      { response_message := some ("System Error: ".toList ++ e.msg), error := some e.msg,
        finished := true, status_code := some 500 } := by
  unfold address_syscall
  rw [h]

theorem c1_outer_catch_system_error_witness :
    addressSyscallBody envIdxW qEmptyW = .error ⟨indexErrText⟩ ∧
      address_syscall envIdxW qEmptyW =
        { response_message := some ("System Error: ".toList ++ indexErrText),
          error := some indexErrText, finished := true, status_code := some 500 } :=
  ⟨rfl, c1_outer_catch_system_error envIdxW qEmptyW ⟨indexErrText⟩ rfl⟩

/-- Claim C9: on every path — credential error, generic backend error,
tool-call result, JSON-shaped result, plain text, and the outer catch-all —
the returned unified response has `finished = true`. -/
theorem c9_always_finished (env : Env) (q : Query) :
    (address_syscall env q).finished = true := by
  unfold address_syscall
  cases h : addressSyscallBody env q with
  | ok r => exact body_ok_finished env q r h
  | error e => rfl

/-- Claim C5: if neither the array-shaped search nor the object-shaped
search yields a substring that parses as valid JSON, `parse_json_format`
returns the literal `"[]"` (and, being a total function, never raises). -/
theorem c5_no_json_sentinel (msg : List Char)
    (hA : ∀ s, searchArr msg = some s → jsonLoads s = none)
    (hO : ∀ s, searchObj msg = some s → jsonLoads s = none) :
    parse_json_format msg = "[]".toList := by
  unfold parse_json_format objFallback
  cases hA' : searchArr msg with
  | none =>
    cases hO' : searchObj msg with
    | none => simp
    | some s => simp [hO s hO']
  | some s =>
    cases hO' : searchObj msg with
    | none => simp [hA s hA']
    | some s2 => simp [hA s hA', hO s2 hO']

theorem c5_no_json_sentinel_witness :
    parse_json_format "no json here".toList = "[]".toList :=
  c5_no_json_sentinel _ (fun _ h => nomatch h) (fun _ h => nomatch h)

/-- Claim C2 (amended): for every backend-call failure, after the masking
step, a message containing `"Invalid API key"` or `"API key not found"`
yields the 402 credential response, and a message containing neither
yields the 500 response whose `response_message` is `"LLM Error: "`
followed by the (masked) message. -/
theorem c2_backend_error_classification (msg : List Char) :
    ((pyIn errInvalid (maskErr msg) || pyIn errNotFound (maskErr msg)) = true →
      address_syscall (envBackendFail msg) qPlain = resp402 (maskErr msg))
    ∧ ((pyIn errInvalid (maskErr msg) || pyIn errNotFound (maskErr msg)) = false →
      address_syscall (envBackendFail msg) qPlain = resp500LLM (maskErr msg)) := by
  have hbase : address_syscall (envBackendFail msg) qPlain = classifyBackendError ⟨msg⟩ := rfl
  constructor
  · intro h
    rw [hbase]
    unfold classifyBackendError
    dsimp only
    rw [if_pos h]
    rfl
  · intro h
    rw [hbase]
    unfold classifyBackendError
    dsimp only
    rw [if_neg (by rw [h]; exact Bool.false_ne_true)]
    rfl

/-- Claim C2, counterexample to the claim as stated: the failure message
`"API key not found"` does not contain the substring `"Invalid API key"`,
yet the dispatcher returns `status_code = 402`, not 500. -/
theorem c2_counterexample :
    pyIn errInvalid "API key not found".toList = false ∧
      (address_syscall (envBackendFail "API key not found".toList) qPlain).status_code =
        some 402 :=
  ⟨rfl, rfl⟩

theorem c2_backend_error_classification_witness :
    ((pyIn errInvalid (maskErr "Invalid API key".toList) ||
        pyIn errNotFound (maskErr "Invalid API key".toList)) = true ∧
      address_syscall (envBackendFail "Invalid API key".toList) qPlain =
        resp402 (maskErr "Invalid API key".toList)) ∧
    ((pyIn errInvalid (maskErr "connection reset".toList) ||
        pyIn errNotFound (maskErr "connection reset".toList)) = false ∧
      address_syscall (envBackendFail "connection reset".toList) qPlain =
        resp500LLM (maskErr "connection reset".toList)) :=
  ⟨⟨rfl, (c2_backend_error_classification "Invalid API key".toList).1 rfl⟩,
    ⟨rfl, (c2_backend_error_classification "connection reset".toList).2 rfl⟩⟩

/-- Claim C8: evaluation of the backend-resolution loop at a two-entry
configuration.  The first entry exercises the `google`-to-`gemini` remap
and the prefixing; the second entry's name already carries its provider
namespace and — although the loop takes care not to double-prefix it — it is
appended nowhere, so the resolved backend list omits it entirely. -/
theorem c8_registry_eval :
    resolve_llms true
      [⟨some "gemini-1.5-flash".toList, some "google".toList⟩,
       ⟨some "gemini/gemini-1.5-flash".toList, some "gemini".toList⟩] =
      .ok [Backend.remote "gemini/gemini-1.5-flash".toList] := rfl

theorem hasDD_cons_false (c : Char) (t : List Char) (h : hasDD (c :: t) = false) :
    hasDD t = false := by
  cases t with
  | nil => rfl
  | cons d t' =>
    unfold hasDD at h
    by_cases hc : c = '_'
    · by_cases hd : d = '_'
      · rw [if_pos hc, if_pos hd] at h
        exact absurd h (by simp)
      · rwa [if_pos hc, if_neg hd] at h
    · rwa [if_neg hc] at h

theorem hasDS_cons_false (c : Char) (t : List Char) (h : hasDS (c :: t) = false) :
    hasDS t = false := by
  cases t with
  | nil => rfl
  | cons d t' =>
    unfold hasDS at h
    by_cases hc : c = '_'
    · by_cases hd : d = '/'
      · rw [if_pos hc, if_pos hd] at h
        exact absurd h (by simp)
      · rwa [if_pos hc, if_neg hd] at h
    · rwa [if_neg hc] at h

theorem pySplitSlash_ne_nil (s : List Char) : pySplitSlash s ≠ [] := by
  induction s with
  | nil => simp [pySplitSlash]
  | cons c t ih =>
    unfold pySplitSlash
    split
    · simp
    · cases h : pySplitSlash t with
      | nil => exact absurd h ih
      | cons a r => simp

theorem pyJoinDunder_cons_cons (c : Char) (y : List Char) (r : List (List Char)) :
    pyJoinDunder ((c :: y) :: r) = c :: pyJoinDunder (y :: r) := by
  cases r <;> simp [pyJoinDunder]

theorem encChars_cons (c : Char) (t : List Char) :
    encChars (c :: t) = if c = '/' then '_' :: '_' :: encChars t else c :: encChars t := rfl

theorem decodeToolName_cons2 (c d : Char) (t : List Char) :
    decodeToolName (c :: d :: t) =
      if c = '_' then
        (if d = '_' then '/' :: decodeToolName t else c :: decodeToolName (d :: t))
      else c :: decodeToolName (d :: t) := rfl

theorem pySplitSlash_cons (c : Char) (t : List Char) :
    pySplitSlash (c :: t) =
      if c = '/' then [] :: pySplitSlash t
      else
        match pySplitSlash t with
        | h :: r => (c :: h) :: r
        | [] => [[c]] := rfl

theorem join_split_eq_encChars (s : List Char) :
    pyJoinDunder (pySplitSlash s) = encChars s := by
  induction s with
  | nil => rfl
  | cons c t ih =>
    rw [encChars_cons]
    by_cases hc : c = '/'
    · rw [if_pos hc]
      cases hL : pySplitSlash t with
      | nil => exact absurd hL (pySplitSlash_ne_nil t)
      | cons y r =>
        have hsp : pySplitSlash (c :: t) = [] :: y :: r := by
          rw [pySplitSlash_cons, if_pos hc, hL]
        have hj : pyJoinDunder ([] :: y :: r) = '_' :: '_' :: pyJoinDunder (y :: r) := by
          simp [pyJoinDunder]
        rw [hsp, hj, ← hL, ih]
    · rw [if_neg hc]
      cases hL : pySplitSlash t with
      | nil => exact absurd hL (pySplitSlash_ne_nil t)
      | cons y r =>
        have hsp : pySplitSlash (c :: t) = (c :: y) :: r := by
          rw [pySplitSlash_cons, if_neg hc, hL]
        rw [hsp, pyJoinDunder_cons_cons, ← hL, ih]

theorem encChars_eq_nil (t : List Char) (h : encChars t = []) : t = [] := by
  cases t with
  | nil => rfl
  | cons c t' =>
    rw [encChars_cons] at h
    by_cases hc : c = '/'
    · rw [if_pos hc] at h
      exact absurd h (by simp)
    · rw [if_neg hc] at h
      exact absurd h (by simp)

theorem decode_encChars : ∀ s : List Char, hasDD s = false → hasDS s = false →
    decodeToolName (encChars s) = s := by
  intro s
  induction s with
  | nil => intro _ _; rfl
  | cons c t ih =>
    intro h1 h2
    have ht1 := hasDD_cons_false c t h1
    have ht2 := hasDS_cons_false c t h2
    by_cases hc : c = '/'
    · rw [encChars_cons, if_pos hc]
      cases hx : encChars t with
      | nil =>
        rw [encChars_eq_nil t hx, hc]
        rfl
      | cons e es =>
        rw [decodeToolName_cons2, if_pos rfl, if_pos rfl, ← hx, ih ht1 ht2, hc]
    · by_cases hu : c = '_'
      · rw [encChars_cons, if_neg hc]
        cases t with
        | nil => rw [hu]; rfl
        | cons d t' =>
          have hdu : d ≠ '_' := by
            intro hd
            unfold hasDD at h1
            rw [if_pos hu, if_pos hd] at h1
            exact absurd h1 (by simp)
          have hds : d ≠ '/' := by
            intro hd
            unfold hasDS at h2
            rw [if_pos hu, if_pos hd] at h2
            exact absurd h2 (by simp)
          have he2 : encChars (d :: t') = d :: encChars t' := by
            rw [encChars_cons, if_neg hds]
          rw [he2, decodeToolName_cons2, if_pos hu, if_neg hdu, ← he2, ih ht1 ht2]
      · rw [encChars_cons, if_neg hc]
        cases hx : encChars t with
        | nil =>
          rw [encChars_eq_nil t hx]
          rfl
        | cons e es =>
          rw [decodeToolName_cons2, if_neg hu, ← hx, ih ht1 ht2]

/-- Claim C6 (amended): for every tool name containing the namespace
separator `/` and containing neither `"__"` nor `"_/"`, encoding with
`pre_process_tools`' rewrite and decoding with `parse_tool_calls`'
`replace("__", "/")` round-trips to the original name. -/
theorem c6_roundtrip (s : List Char) (hslash : '/' ∈ s)
    (h1 : hasDD s = false) (h2 : hasDS s = false) :
    decodeToolName (encodeToolName s) = s := by
  unfold encodeToolName
  rw [if_pos (by simpa using hslash), join_split_eq_encChars]
  exact decode_encChars s h1 h2

/-- Claim C6, counterexample to the claim as stated: the name `"a__b/c"`
contains the separator, but encode-then-decode yields `"a/b/c"`. -/
theorem c6_counterexample :
    '/' ∈ "a__b/c".toList ∧
      decodeToolName (encodeToolName "a__b/c".toList) ≠ "a__b/c".toList :=
  ⟨by decide, by decide⟩

theorem c6_roundtrip_witness :
    ('/' ∈ "travel/book".toList ∧ hasDD "travel/book".toList = false ∧
        hasDS "travel/book".toList = false) ∧
      decodeToolName (encodeToolName "travel/book".toList) = "travel/book".toList :=
  ⟨⟨by decide, rfl, rfl⟩, c6_roundtrip "travel/book".toList (by decide) rfl rfl⟩

theorem objLookup_objSet_same (kvs : List (List Char × Json)) (k : List Char) (v : Json) :
    objLookup (objSet kvs k v) k = some v := by
  induction kvs with
  | nil => simp [objSet, objLookup]
  | cons p t ih =>
    obtain ⟨k', v'⟩ := p
    unfold objSet
    by_cases hk : k' = k
    · rw [if_pos hk]
      unfold objLookup
      rw [if_pos hk]
    · rw [if_neg hk]
      unfold objLookup
      rw [if_neg hk]
      exact ih

theorem objLookup_objSet_other (kvs : List (List Char × Json)) (k k2 : List Char) (v : Json)
    (h : k ≠ k2) : objLookup (objSet kvs k v) k2 = objLookup kvs k2 := by
  induction kvs with
  | nil => simp [objSet, objLookup, h]
  | cons p t ih =>
    obtain ⟨k', v'⟩ := p
    unfold objSet
    by_cases hk : k' = k
    · rw [if_pos hk]
      subst hk
      simp only [objLookup, if_neg h]
    · rw [if_neg hk]
      by_cases hk2 : k' = k2
      · simp only [objLookup, if_pos hk2]
      · simp only [objLookup, if_neg hk2]
        exact ih

theorem range'_succ_self (s n : Nat) : List.range' s (n + 1) = s :: List.range' (s + 1) n := rfl

theorem processCalls_map_getId : ∀ (l : List Json) (gen : Nat → List Char) (k : Nat)
    (out : List Json), processCalls gen k l = .ok out →
    out.map getId = (List.range' k out.length).map (fun i => some (Json.str (gen i))) := by
  intro l
  induction l with
  | nil =>
    intro gen k out h
    unfold processCalls at h
    injection h with h'
    subst h'
    rfl
  | cons c rest ih =>
    intro gen k out h
    unfold processCalls at h
    cases c with
    | obj kvs =>
      dsimp only at h
      cases hn : objLookup (objSet kvs "id".toList (Json.str (gen k))) "name".toList with
      | none =>
        rw [hn] at h
        exact Except.noConfusion h
      | some v =>
        rw [hn] at h
        cases v with
        | str nm =>
          cases hrec : processCalls gen (k + 1) rest with
          | error e =>
            rw [hrec] at h
            exact Except.noConfusion h
          | ok out' =>
            rw [hrec] at h
            injection h with h'
            subst h'
            have hid : getId (Json.obj (objSet (objSet kvs "id".toList (Json.str (gen k)))
                "name".toList (Json.str (decodeToolName nm)))) = some (Json.str (gen k)) := by
              show objLookup (objSet (objSet kvs "id".toList (Json.str (gen k)))
                "name".toList (Json.str (decodeToolName nm))) "id".toList = some (Json.str (gen k))
              rw [objLookup_objSet_other _ _ _ _ (by decide), objLookup_objSet_same]
            simp only [List.map_cons, List.length_cons, range'_succ_self, hid]
            rw [ih gen (k + 1) out' hrec]
        | null => exact Except.noConfusion h
        | bool b => exact Except.noConfusion h
        | num n => exact Except.noConfusion h
        | arr xs => exact Except.noConfusion h
        | obj kvs2 => exact Except.noConfusion h
    | null => exact Except.noConfusion h
    | bool b => exact Except.noConfusion h
    | num n => exact Except.noConfusion h
    | str s2 => exact Except.noConfusion h
    | arr xs => exact Except.noConfusion h

/-- Claim C7: when the id generator returns a fresh, non-empty, globally
unique string on each call, every tool call returned by `parse_tool_calls`
carries a non-empty generated id, the ids are pairwise distinct within the
response (even for duplicate-content calls), and an extracted single JSON
object is wrapped into a one-element array. -/
theorem c7_distinct_ids (gen : Nat → List Char) (msg : List Char)
    (hfresh : ∀ i, gen i ≠ []) (hinj : Function.Injective gen) :
    (∀ out, parse_tool_calls gen msg = .ok out →
      (∀ o ∈ out, ∃ s, getId o = some (Json.str s) ∧ s ≠ []) ∧ (out.map getId).Nodup)
    ∧ (∀ kvs, jsonLoads (parse_json_format msg) = some (Json.obj kvs) →
        extractedCalls msg = some [Json.obj kvs]) := by
  constructor
  · intro out h
    unfold parse_tool_calls at h
    cases he : extractedCalls msg with
    | none =>
      rw [he] at h
      exact Except.noConfusion h
    | some l =>
      rw [he] at h
      have hmap := processCalls_map_getId l gen 0 out h
      constructor
      · intro o ho
        have hmem : getId o ∈ out.map getId := List.mem_map_of_mem getId ho
        rw [hmap] at hmem
        obtain ⟨i, _, heq⟩ := List.mem_map.mp hmem
        exact ⟨gen i, heq.symm, hfresh i⟩
      · rw [hmap]
        refine List.Nodup.map ?_ (List.nodup_range' _ _)
        intro a b hab
        apply hinj
        have := Option.some.inj hab
        exact Json.str.inj this
  · intro kvs h
    unfold extractedCalls
    rw [h]

theorem c7_distinct_ids_witness :
    ((∀ i, genW i ≠ []) ∧ Function.Injective genW) ∧
      ((∀ out, parse_tool_calls genW msgDupW = .ok out →
        (∀ o ∈ out, ∃ s, getId o = some (Json.str s) ∧ s ≠ []) ∧ (out.map getId).Nodup)
      ∧ (∀ kvs, jsonLoads (parse_json_format msgDupW) = some (Json.obj kvs) →
          extractedCalls msgDupW = some [Json.obj kvs])) := by
  have hfresh : ∀ i, genW i ≠ [] := by
    intro i
    simp [genW]
  have hinj : Function.Injective genW := by
    intro a b hab
    have := congrArg List.length hab
    simpa [genW] using this
  exact ⟨⟨hfresh, hinj⟩, c7_distinct_ids genW msgDupW hfresh hinj⟩

/-- Claim C10: when tools are supplied and the backend succeeds, a raw text
whose extracted JSON payload starts with an object lacking the `name` key
makes `parse_tool_calls` raise `KeyError: 'name'`, and the dispatcher
returns the 500 response with message `"System Error: 'name'"` — not a
"no tool call" or plain-text result. -/
theorem c10_missing_name_system_error (res : List Char) (kvs : List (List Char × Json))
    (rest : List Json) (hext : extractedCalls res = some (Json.obj kvs :: rest))
    (hname : objLookup kvs "name".toList = none) :
    address_syscall (envBackendOk res) qTools =
      { response_message := some ("System Error: ".toList ++ keyErrText "name".toList),
        error := some (keyErrText "name".toList), finished := true, status_code := some 500 } := by
  have hptc : parse_tool_calls (envBackendOk res).gen res = .error ⟨keyErrText "name".toList⟩ := by
    unfold parse_tool_calls
    rw [hext]
    unfold processCalls
    dsimp only
    have hn2 : objLookup (objSet kvs "id".toList (Json.str ((envBackendOk res).gen 0)))
        "name".toList = none := by
      rw [objLookup_objSet_other _ _ _ _ (by decide)]
      exact hname
    rw [hn2]
  have hbody : addressSyscallBody (envBackendOk res) qTools =
      (match parse_tool_calls (envBackendOk res).gen res with
       | .error e => .error e
       | .ok tcs =>
         if tcs.isEmpty then .ok (finishPlain qTools.retType res)
         else .ok { response_message := none, tool_calls := some tcs, finished := true }) := rfl
  unfold address_syscall
  rw [hbody, hptc]

theorem c10_missing_name_system_error_witness :
    (extractedCalls resW10 = some (Json.obj [("parameters".toList, Json.num 1)] :: []) ∧
      objLookup [("parameters".toList, Json.num 1)] "name".toList = none) ∧
    address_syscall (envBackendOk resW10) qTools =
      { response_message := some ("System Error: ".toList ++ keyErrText "name".toList),
        error := some (keyErrText "name".toList), finished := true, status_code := some 500 } :=
  ⟨⟨rfl, rfl⟩, c10_missing_name_system_error resW10 [("parameters".toList, Json.num 1)] [] rfl rfl⟩

theorem listStarts_self_append (p r : List Char) : listStarts p (p ++ r) = true := by
  induction p with
  | nil => rfl
  | cons c t ih => simp [listStarts, ih]

theorem pyFind_single_notmem (c : Char) (key r : List Char) (h : c ∉ key) :
    pyFind [c] (key ++ c :: r) = some key.length := by
  induction key with
  | nil =>
    unfold pyFind
    rw [if_pos (by simp [listStarts])]
    rfl
  | cons d t ih =>
    have hdc : ¬(c = d) := fun hh => h (hh ▸ List.mem_cons_self d t)
    have ht : c ∉ t := fun hh => h (List.mem_cons_of_mem d hh)
    unfold pyFind
    rw [if_neg (by simp [listStarts, hdc])]
    simp only [List.cons_append]
    rw [ih ht]
    simp

theorem pyIn_cons (pat : List Char) (c : Char) (t : List Char) :
    pyIn pat (c :: t) = (listStarts pat (c :: t) || pyIn pat t) := rfl

theorem pyIn_append_right (pat a b : List Char) (h : pyIn pat b = true) :
    pyIn pat (a ++ b) = true := by
  induction a with
  | nil => simpa
  | cons c t ih => rw [List.cons_append, pyIn_cons, ih, Bool.or_true]

theorem getD_mem_embedded (a key b : List Char) (j : Nat) (h1 : a.length ≤ j)
    (h2 : j < a.length + key.length) :
    (a ++ (key ++ b)).getD j ' ' ∈ key := by
  have hlt : j - a.length < key.length := by omega
  rw [List.getD_append_right, List.getD_append]
  · rw [List.getD_eq_getElem key ' ' hlt]
    exact List.getElem_mem hlt
  · exact hlt
  · exact h1

theorem maskErr_structured (key rest : List Char) (hlen : key.length = 20)
    (hdot : '.' ∉ key) :
    maskErr (markSp ++ key ++ ('.' :: rest)) = maskedOf key rest := by
  have hassoc : markSp ++ key ++ ('.' :: rest) = markSp ++ (key ++ ('.' :: rest)) :=
    List.append_assoc markSp key ('.' :: rest)
  have hfind : pyFind markColon (markSp ++ key ++ ('.' :: rest)) = some 0 := by
    have h1 : markSp ++ key ++ ('.' :: rest) = markColon ++ (' ' :: (key ++ ('.' :: rest))) := by
      rw [hassoc, show markSp = markColon ++ [' '] from rfl, List.append_assoc]
      rfl
    rw [h1]
    unfold pyFind
    rw [if_pos (listStarts_self_append markColon _)]
  have hdrop : (markSp ++ key ++ ('.' :: rest)).drop (0 + markSp.length) =
      key ++ ('.' :: rest) := by
    rw [Nat.zero_add, hassoc, List.drop_left]
  have hfrom : pyFindFrom ['.'] (markSp ++ key ++ ('.' :: rest)) (0 + markSp.length) =
      some (key.length + (0 + markSp.length)) := by
    unfold pyFindFrom
    rw [hdrop, pyFind_single_notmem '.' key rest hdot]
    rfl
  have hsub : key.length + (0 + markSp.length) - (0 + markSp.length) = key.length := by omega
  have htake : (key ++ ('.' :: rest)).take key.length = key := List.take_left key ('.' :: rest)
  have htakeL : (markSp ++ key ++ ('.' :: rest)).take (0 + markSp.length) = markSp := by
    rw [Nat.zero_add, hassoc, List.take_left]
  have hdropR : (markSp ++ key ++ ('.' :: rest)).drop (key.length + (0 + markSp.length)) =
      '.' :: rest := by
    rw [show key.length + (0 + markSp.length) = (markSp ++ key).length from by
      simp [List.length_append]; omega]
    exact List.drop_left (markSp ++ key) ('.' :: rest)
  unfold maskErr
  rw [hfind]
  dsimp only
  rw [hfrom]
  dsimp only
  rw [hdrop, hsub, htake, htakeL, hdropR, hlen]
  rw [if_pos (by norm_num)]
  unfold maskedOf
  rfl

theorem embed_tail_case (pre rest a kb : List Char)
    (hab : pre ++ rest = a ++ kb) (hlen : pre.length ≤ a.length) :
    rest = a.drop pre.length ++ kb := by
  have h1 : (pre ++ rest).drop pre.length = rest := List.drop_left pre rest
  have h2 : (a ++ kb).drop pre.length = a.drop pre.length ++ kb :=
    List.drop_append_of_le_length hlen
  rw [← h1, hab, h2]

theorem maskedOf_getD17 (key rest : List Char) (hlen : key.length = 20) :
    (maskedOf key rest).getD 17 ' ' = ' ' := by
  have h2t : (key.take 2).length = 2 := by simp [List.length_take, hlen]
  have h2d : (key.drop 18).length = 2 := by simp [List.length_drop, hlen]
  have hm18 : markSp.length = 18 := rfl
  unfold maskedOf
  rw [List.getD_append, List.getD_append]
  · rfl
  · rw [hm18]; omega
  · simp [List.length_append, hm18, h2t, h2d]

theorem maskedOf_getD26 (key rest : List Char) (hlen : key.length = 20) :
    (maskedOf key rest).getD 26 ' ' = '.' := by
  have h2t : (key.take 2).length = 2 := by simp [List.length_take, hlen]
  have h2d : (key.drop 18).length = 2 := by simp [List.length_drop, hlen]
  have hm18 : markSp.length = 18 := rfl
  unfold maskedOf
  rw [List.getD_append_right]
  · rw [show (26 : Nat) - (markSp ++ (key.take 2 ++ "****".toList ++ key.drop 18)).length = 0
      from by simp [List.length_append, hm18, h2t, h2d]]
    rfl
  · simp [List.length_append, hm18, h2t, h2d]

theorem maskedOf_split27 (key rest : List Char) (hlen : key.length = 20) :
    maskedOf key rest =
      (markSp ++ (key.take 2 ++ "****".toList ++ key.drop 18) ++ ['.']) ++ rest
    ∧ (markSp ++ (key.take 2 ++ "****".toList ++ key.drop 18) ++ ['.']).length = 27 := by
  have h2t : (key.take 2).length = 2 := by simp [List.length_take, hlen]
  have h2d : (key.drop 18).length = 2 := by simp [List.length_drop, hlen]
  have hm18 : markSp.length = 18 := rfl
  constructor
  · unfold maskedOf
    simp [List.append_assoc]
  · simp [List.length_append, hm18, h2t, h2d]

theorem maskedOf_no_embed (key rest : List Char) (hlen : key.length = 20)
    (hdot : '.' ∉ key) (hsp : ' ' ∉ key) (hrest : ¬ key <:+: rest) :
    ¬ key <:+: maskedOf key rest := by
  rintro ⟨a, b, hst⟩
  have hab : maskedOf key rest = a ++ (key ++ b) := by
    rw [← hst, List.append_assoc]
  by_cases hc1 : a.length ≤ 17
  · have hmem : (a ++ (key ++ b)).getD 17 ' ' ∈ key :=
      getD_mem_embedded a key b 17 hc1 (by omega)
    rw [← hab, maskedOf_getD17 key rest hlen] at hmem
    exact hsp hmem
  · by_cases hc2 : a.length ≤ 26
    · have hmem : (a ++ (key ++ b)).getD 26 ' ' ∈ key :=
        getD_mem_embedded a key b 26 hc2 (by omega)
      rw [← hab, maskedOf_getD26 key rest hlen] at hmem
      exact hdot hmem
    · obtain ⟨hpre, hplen⟩ := maskedOf_split27 key rest hlen
      have htail : rest =
          a.drop (markSp ++ (key.take 2 ++ "****".toList ++ key.drop 18) ++ ['.']).length ++
            (key ++ b) :=
        embed_tail_case _ rest a (key ++ b) (by rw [← hpre]; exact hab) (by rw [hplen]; omega)
      exact hrest ⟨a.drop (markSp ++ (key.take 2 ++ "****".toList ++ key.drop 18) ++ ['.']).length,
        b, by rw [htail, List.append_assoc]⟩

theorem llmError_no_embed (key rest : List Char) (hlen : key.length = 20)
    (hdot : '.' ∉ key) (hsp : ' ' ∉ key) (hrest : ¬ key <:+: rest) :
    ¬ key <:+: "LLM Error: ".toList ++ maskedOf key rest := by
  rintro ⟨a, b, hst⟩
  have hab : "LLM Error: ".toList ++ maskedOf key rest = a ++ (key ++ b) := by
    rw [← hst, List.append_assoc]
  have h11 : ("LLM Error: ".toList).length = 11 := rfl
  by_cases hc1 : a.length ≤ 10
  · have hmem : (a ++ (key ++ b)).getD 10 ' ' ∈ key :=
      getD_mem_embedded a key b 10 hc1 (by omega)
    rw [← hab] at hmem
    have hval : ("LLM Error: ".toList ++ maskedOf key rest).getD 10 ' ' = ' ' := by
      rw [List.getD_append]
      · rfl
      · rw [h11]; omega
    rw [hval] at hmem
    exact hsp hmem
  · by_cases hc2 : a.length ≤ 28
    · have hmem : (a ++ (key ++ b)).getD 28 ' ' ∈ key :=
        getD_mem_embedded a key b 28 hc2 (by omega)
      rw [← hab] at hmem
      have hval : ("LLM Error: ".toList ++ maskedOf key rest).getD 28 ' ' = ' ' := by
        rw [List.getD_append_right]
        · rw [show (28 : Nat) - ("LLM Error: ".toList).length = 17 from by rw [h11]]
          exact maskedOf_getD17 key rest hlen
        · rw [h11]; omega
      rw [hval] at hmem
      exact hsp hmem
    · by_cases hc3 : a.length ≤ 37
      · have hmem : (a ++ (key ++ b)).getD 37 ' ' ∈ key :=
          getD_mem_embedded a key b 37 hc3 (by omega)
        rw [← hab] at hmem
        have hval : ("LLM Error: ".toList ++ maskedOf key rest).getD 37 ' ' = '.' := by
          rw [List.getD_append_right]
          · rw [show (37 : Nat) - ("LLM Error: ".toList).length = 26 from by rw [h11]]
            exact maskedOf_getD26 key rest hlen
          · rw [h11]; omega
        rw [hval] at hmem
        exact hdot hmem
      · obtain ⟨hpre, hplen⟩ := maskedOf_split27 key rest hlen
        have hpre2 : "LLM Error: ".toList ++ maskedOf key rest =
            ("LLM Error: ".toList ++
              (markSp ++ (key.take 2 ++ "****".toList ++ key.drop 18) ++ ['.'])) ++ rest := by
          rw [hpre]
          simp [List.append_assoc]
        have hplen2 : ("LLM Error: ".toList ++
            (markSp ++ (key.take 2 ++ "****".toList ++ key.drop 18) ++ ['.'])).length = 38 := by
          rw [List.length_append, h11, hplen]
        have htail : rest =
            a.drop ("LLM Error: ".toList ++
              (markSp ++ (key.take 2 ++ "****".toList ++ key.drop 18) ++ ['.'])).length ++
              (key ++ b) :=
          embed_tail_case _ rest a (key ++ b) (by rw [← hpre2]; exact hab)
            (by rw [hplen2]; omega)
        exact hrest ⟨a.drop ("LLM Error: ".toList ++
            (markSp ++ (key.take 2 ++ "****".toList ++ key.drop 18) ++ ['.'])).length,
          b, by rw [htail, List.append_assoc]⟩

theorem resp402text_no_embed (key : List Char) (hlen : key.length = 20) (hsp : ' ' ∉ key) :
    ¬ key <:+: resp402text := by
  rintro ⟨a, b, hst⟩
  have hab : resp402text = a ++ (key ++ b) := by
    rw [← hst, List.append_assoc]
  have hrlen : resp402text.length = 57 := rfl
  have hablen : a.length + (key.length + b.length) = 57 := by
    rw [← hrlen, hab]
    simp [List.length_append]
  by_cases hc1 : a.length ≤ 17
  · have hmem : (a ++ (key ++ b)).getD 17 ' ' ∈ key :=
      getD_mem_embedded a key b 17 hc1 (by omega)
    rw [← hab] at hmem
    have hval : resp402text.getD 17 ' ' = ' ' := rfl
    rw [hval] at hmem
    exact hsp hmem
  · by_cases hc2 : a.length ≤ 33
    · have hmem : (a ++ (key ++ b)).getD 33 ' ' ∈ key :=
        getD_mem_embedded a key b 33 hc2 (by omega)
      rw [← hab] at hmem
      have hval : resp402text.getD 33 ' ' = ' ' := rfl
      rw [hval] at hmem
      exact hsp hmem
    · have hmem : (a ++ (key ++ b)).getD 50 ' ' ∈ key :=
        getD_mem_embedded a key b 50 (by omega) (by omega)
      rw [← hab] at hmem
      have hval : resp402text.getD 50 ' ' = ' ' := rfl
      rw [hval] at hmem
      exact hsp hmem

/-- Claim C3 (amended): masking applies exactly to failure messages carrying
the marker `"API key provided:"`.  For every backend failure whose message is
`"API key provided: <key>.<rest>"` — a 20-character key containing no period
and no space, followed by any tail in which the key does not occur — the
response's `error` field carries the masked message (first two characters,
`****`, last two, tail unchanged), its `response_message` is either the fixed
402 credential text or `"LLM Error: "` plus the masked message, and the key
occurs verbatim in neither field.  Messages embedding a key without the
marker are surfaced unmasked (see the counterexample). -/
theorem c3_key_masked (key rest : List Char) (hlen : key.length = 20)
    (hdot : '.' ∉ key) (hsp : ' ' ∉ key) (hrest : ¬ key <:+: rest) :
    (address_syscall (envBackendFail (markSp ++ key ++ ('.' :: rest))) qPlain).error
        = some (maskedOf key rest)
    ∧ ((address_syscall (envBackendFail (markSp ++ key ++ ('.' :: rest))) qPlain).response_message
          = some resp402text
      ∨ (address_syscall (envBackendFail (markSp ++ key ++ ('.' :: rest))) qPlain).response_message
          = some ("LLM Error: ".toList ++ maskedOf key rest))
    ∧ ¬ key <:+: maskedOf key rest
    ∧ ¬ key <:+: resp402text
    ∧ ¬ key <:+: "LLM Error: ".toList ++ maskedOf key rest := by
  have hbase : address_syscall (envBackendFail (markSp ++ key ++ ('.' :: rest))) qPlain =
      classifyBackendError ⟨markSp ++ key ++ ('.' :: rest)⟩ := rfl
  refine ⟨?_, ?_, maskedOf_no_embed key rest hlen hdot hsp hrest,
    resp402text_no_embed key hlen hsp, llmError_no_embed key rest hlen hdot hsp hrest⟩
  · rw [hbase]
    unfold classifyBackendError
    dsimp only
    rw [maskErr_structured key rest hlen hdot]
    split
    · rfl
    · rfl
  · rw [hbase]
    unfold classifyBackendError
    dsimp only
    rw [maskErr_structured key rest hlen hdot]
    split
    · exact Or.inl rfl
    · exact Or.inr rfl

/-- Claim C3, counterexample to the claim as stated: a backend failure whose
message embeds a literal 20-character key without the `"API key provided:"`
marker is surfaced verbatim — the response's `error` field contains the key
unmasked. -/
theorem c3_counterexample :
    keyCE3.length = 20 ∧
      (address_syscall (envBackendFail msgCE3) qPlain).error = some msgCE3 ∧
      (∃ a b, msgCE3 = a ++ (keyCE3 ++ b)) :=
  ⟨rfl, rfl, ⟨"Invalid API key: ".toList, [], by simp [msgCE3]⟩⟩

theorem c3_key_masked_witness :
    (keyW3.length = 20 ∧ '.' ∉ keyW3 ∧ ' ' ∉ keyW3 ∧
        ¬ keyW3 <:+: " Invalid API key".toList) ∧
      ((address_syscall
            (envBackendFail (markSp ++ keyW3 ++ ('.' :: " Invalid API key".toList))) qPlain).error
          = some (maskedOf keyW3 " Invalid API key".toList)
        ∧ ((address_syscall
              (envBackendFail (markSp ++ keyW3 ++ ('.' :: " Invalid API key".toList))) qPlain).response_message
            = some resp402text
          ∨ (address_syscall
              (envBackendFail (markSp ++ keyW3 ++ ('.' :: " Invalid API key".toList))) qPlain).response_message
            = some ("LLM Error: ".toList ++ maskedOf keyW3 " Invalid API key".toList))
        ∧ ¬ keyW3 <:+: maskedOf keyW3 " Invalid API key".toList
        ∧ ¬ keyW3 <:+: resp402text
        ∧ ¬ keyW3 <:+: "LLM Error: ".toList ++ maskedOf keyW3 " Invalid API key".toList) :=
  ⟨⟨rfl, by decide, by decide, by decide⟩,
    c3_key_masked keyW3 " Invalid API key".toList rfl (by decide) (by decide) (by decide)⟩

/-- Claim C4, counterexample to the claim as stated: the array
`[{"name":\n"x"}]` is valid JSON embedded in prose, but `.` in the two
search patterns does not match a newline, so `parse_json_format` returns
the `"[]"` sentinel instead of the array's canonical re-serialization. -/
theorem c4_counterexample :
    jsonLoads "[\x7b\"name\":\n\"x\"\x7d]".toList = some nlArr ∧
      parse_json_format nlMsg = "[]".toList ∧
      "[]".toList ≠ jsonDumps nlArr :=
  ⟨rfl, rfl, by decide⟩

theorem okStrChar_facts (c : Char) (h : okStrChar c = true) :
    ¬(c = '"') ∧ ¬(c = '\\') ∧ ¬(c = rbrace) ∧ 32 ≤ c.toNat := by
  simp only [okStrChar, Bool.and_eq_true, Bool.not_eq_true', beq_eq_false_iff_ne, ne_eq,
    decide_eq_true_eq] at h
  exact ⟨h.1.1.1, h.1.1.2, h.1.2, h.2⟩

theorem escChar_ok (c : Char) (h : okStrChar c = true) : escChar c = [c] := by
  obtain ⟨h1, h2, _, h4⟩ := okStrChar_facts c h
  unfold escChar
  rw [if_neg h1, if_neg h2,
    if_neg (fun he => absurd (he ▸ h4) (by decide)),
    if_neg (fun he => absurd (he ▸ h4) (by decide)),
    if_neg (fun he => absurd (he ▸ h4) (by decide)),
    if_neg (fun he => by omega),
    if_neg (fun he => by omega),
    if_neg (fun he => by omega)]

theorem escBody_ok (s : List Char) (h : ∀ c ∈ s, okStrChar c = true) : escBody s = s := by
  induction s with
  | nil => rfl
  | cons c t ih =>
    show escChar c ++ escBody t = c :: t
    rw [escChar_ok c (h c (List.mem_cons_self c t)),
      ih (fun d hd => h d (List.mem_cons_of_mem c hd))]
    rfl

theorem escStr_ok (s : List Char) (h : ∀ c ∈ s, okStrChar c = true) :
    escStr s = '"' :: s ++ ['"'] := by
  unfold escStr
  rw [escBody_ok s h]

theorem matchArrAt_not_bracket (c : Char) (l : List Char) (h : ¬(c = '[')) :
    matchArrAt (c :: l) = none := by
  simp [matchArrAt, h]

theorem searchArr_cons_none (c : Char) (l : List Char) (h : matchArrAt (c :: l) = none) :
    searchArr (c :: l) = searchArr l := by
  have e : searchArr (c :: l) =
      (match matchArrAt (c :: l) with
       | some m => some m
       | none => searchArr l) := rfl
  rw [e, h]

theorem searchArr_cons_some (c : Char) (l : List Char) (m : List Char)
    (h : matchArrAt (c :: l) = some m) : searchArr (c :: l) = some m := by
  have e : searchArr (c :: l) =
      (match matchArrAt (c :: l) with
       | some m => some m
       | none => searchArr l) := rfl
  rw [e, h]

theorem searchArr_skip (p r : List Char) (hp : '[' ∉ p) :
    searchArr (p ++ r) = searchArr r := by
  induction p with
  | nil => rfl
  | cons c t ih =>
    have hc : ¬(c = '[') := fun he => hp (he ▸ List.mem_cons_self c t)
    rw [List.cons_append, searchArr_cons_none c _ (matchArrAt_not_bracket c _ hc)]
    exact ih (fun hm => hp (List.mem_cons_of_mem c hm))

theorem lazyCloseA_cons (c : Char) (l : List Char) :
    lazyCloseA (c :: l) =
      (if c = rbrace then
        match wsThenCloseBr l with
        | some (w, _) => some (c :: w)
        | none => (lazyCloseA l).map (c :: ·)
      else if c = '\n' then none
      else (lazyCloseA l).map (c :: ·)) := rfl

theorem lazyCloseA_skip (xs r : List Char) (h : ∀ c ∈ xs, ¬(c = rbrace) ∧ ¬(c = '\n')) :
    lazyCloseA (xs ++ r) = (lazyCloseA r).map (xs ++ ·) := by
  induction xs with
  | nil =>
    cases hr : lazyCloseA r <;> exact hr
  | cons c t ih =>
    obtain ⟨h1, h2⟩ := h c (List.mem_cons_self c t)
    rw [List.cons_append, lazyCloseA_cons, if_neg h1, if_neg h2,
      ih (fun d hd => h d (List.mem_cons_of_mem c hd)), Option.map_map]
    rfl

theorem okStrChar_scan (s : List Char) (h : ∀ c ∈ s, okStrChar c = true) :
    ∀ c ∈ s, ¬(c = rbrace) ∧ ¬(c = '\n') := by
  intro c hc
  obtain ⟨_, _, h3, h4⟩ := okStrChar_facts c (h c hc)
  exact ⟨h3, fun he => absurd (he ▸ h4) (by decide)⟩

theorem skipWs_quote (Z : List Char) : skipWs ('"' :: Z) = '"' :: Z := rfl

theorem skipWs_colon (Z : List Char) : skipWs (':' :: Z) = ':' :: Z := rfl

theorem skipWs_comma (Z : List Char) : skipWs (',' :: Z) = ',' :: Z := rfl

theorem skipWs_lb (Z : List Char) : skipWs (lbrace :: Z) = lbrace :: Z := rfl

theorem skipWs_rb (Z : List Char) : skipWs (rbrace :: Z) = rbrace :: Z := rfl

theorem skipWs_br (Z : List Char) : skipWs (']' :: Z) = ']' :: Z := rfl

theorem skipWs_sp (Z : List Char) : skipWs (' ' :: Z) = skipWs Z := rfl

theorem parseStrBody_skip (s r : List Char) (h : ∀ c ∈ s, okStrChar c = true) :
    parseStrBody (s ++ '"' :: r) = some (s, r) := by
  induction s with
  | nil => rfl
  | cons c t ih =>
    obtain ⟨h1, h2, _, h4⟩ := okStrChar_facts c (h c (List.mem_cons_self c t))
    have hctl : ¬(c.toNat < 32) := by omega
    rw [List.cons_append]
    show parseStrAux false (c :: (t ++ '"' :: r)) = some (c :: t, r)
    simp only [parseStrAux]
    rw [if_neg h1, if_neg h2, if_neg hctl]
    show (parseStrBody (t ++ '"' :: r)).map (fun p => (c :: p.1, p.2)) = some (c :: t, r)
    rw [ih (fun d hd => h d (List.mem_cons_of_mem c hd))]
    rfl

theorem parseValue_str (g : Nat) (s R : List Char) (hs : ∀ c ∈ s, okStrChar c = true) :
    parseValue (g + 1) ('"' :: (s ++ '"' :: R)) = some (Json.str s, R) := by
  simp only [parseValue, if_true]
  rw [parseStrBody_skip s R hs]
  rfl

theorem skipWs_ob (Z : List Char) : skipWs ('[' :: Z) = '[' :: Z := rfl


theorem parseValue_succ (fuel : Nat) (l : List Char) :
    parseValue (fuel + 1) l =
      (match l with
       | [] => none
       | c :: t =>
         if c = lbrace then
           let t' := skipWs t
           match t' with
           | d :: t'' => if d = rbrace then some (Json.obj [], t'') else parseEntries fuel t' []
           | [] => none
         else if c = '[' then
           let t' := skipWs t
           match t' with
           | d :: t'' => if d = ']' then some (Json.arr [], t'') else parseElems fuel t' []
           | [] => none
         else if c = '"' then
           (parseStrBody t).map (fun p => (Json.str p.1, p.2))
         else if c = 't' then
           if "rue".toList.isPrefixOf t then some (Json.bool true, t.drop 3) else none
         else if c = 'f' then
           if "alse".toList.isPrefixOf t then some (Json.bool false, t.drop 4) else none
         else if c = 'n' then
           if "ull".toList.isPrefixOf t then some (Json.null, t.drop 3) else none
         else
           (parseNum l).map (fun p => (Json.num p.1, p.2))) := rfl

theorem parseElems_succ (fuel : Nat) (l : List Char) (acc : List Json) :
    parseElems (fuel + 1) l acc =
      (match parseValue fuel l with
       | none => none
       | some (v, r) =>
         match skipWs r with
         | c :: r' =>
           if c = ',' then parseElems fuel (skipWs r') (acc ++ [v])
           else if c = ']' then some (Json.arr (acc ++ [v]), r')
           else none
         | [] => none) := rfl

theorem parseEntries_succ (fuel : Nat) (l : List Char) (acc : List (List Char × Json)) :
    parseEntries (fuel + 1) l acc =
      (match l with
       | c :: t =>
         if c = '"' then
           match parseStrBody t with
           | none => none
           | some (k, r1) =>
             match skipWs r1 with
             | d :: r2 =>
               if d = ':' then
                 match parseValue fuel (skipWs r2) with
                 | none => none
                 | some (v, r3) =>
                   let acc' := objSet acc k v
                   match skipWs r3 with
                   | e :: r4 =>
                     if e = ',' then parseEntries fuel (skipWs r4) acc'
                     else if e = rbrace then some (Json.obj acc', r4)
                     else none
                   | [] => none
               else none
             | [] => none
         else none
       | [] => none) := rfl

theorem jsonDumps_str (s : List Char) : jsonDumps (Json.str s) = escStr s := by
  simp only [jsonDumps]

theorem dumpsEntries_single (k : List Char) (v : Json) :
    dumpsEntries [(k, v)] = escStr k ++ ':' :: ' ' :: jsonDumps v := by
  simp only [dumpsEntries]

theorem dumpsEntries_cons2 (k : List Char) (v : Json) (e : List Char × Json)
    (t : List (List Char × Json)) :
    dumpsEntries ((k, v) :: e :: t) =
      escStr k ++ ':' :: ' ' :: jsonDumps v ++ ',' :: ' ' :: dumpsEntries (e :: t) := by
  simp only [dumpsEntries]

theorem safe_append (xs ys : List Char)
    (hx : ∀ c ∈ xs, ¬(c = rbrace) ∧ ¬(c = '\n'))
    (hy : ∀ c ∈ ys, ¬(c = rbrace) ∧ ¬(c = '\n')) :
    ∀ c ∈ xs ++ ys, ¬(c = rbrace) ∧ ¬(c = '\n') := by
  intro c hc
  rcases List.mem_append.mp hc with h | h
  · exact hx c h
  · exact hy c h

theorem safe_cons (x : Char) (ys : List Char)
    (hx : ¬(x = rbrace) ∧ ¬(x = '\n'))
    (hy : ∀ c ∈ ys, ¬(c = rbrace) ∧ ¬(c = '\n')) :
    ∀ c ∈ x :: ys, ¬(c = rbrace) ∧ ¬(c = '\n') := by
  intro c hc
  rcases List.mem_cons.mp hc with h | h
  · subst h; exact hx
  · exact hy c h

theorem escStr_safe (s : List Char) (h : ∀ c ∈ s, okStrChar c = true) :
    ∀ c ∈ escStr s, ¬(c = rbrace) ∧ ¬(c = '\n') := by
  intro c hc
  rw [escStr_ok s h] at hc
  rcases List.mem_cons.mp hc with h1 | h2
  · subst h1; exact (by decide)
  · rcases List.mem_append.mp h2 with h3 | h4
    · exact okStrChar_scan s h c h3
    · have hq : c = '"' := by simpa using h4
      subst hq; exact (by decide)

theorem paramsText_safe (ps : List (List Char × List Char))
    (h : ∀ pr ∈ ps, (∀ c ∈ pr.1, okStrChar c = true) ∧ (∀ c ∈ pr.2, okStrChar c = true)) :
    ∀ c ∈ paramsText ps, ¬(c = rbrace) ∧ ¬(c = '\n') := by
  induction ps with
  | nil => intro c hc; simp [paramsText] at hc
  | cons pr t ih =>
    have hpr := h pr (List.mem_cons_self pr t)
    have hsep : ∀ c ∈ (match t with
        | ([] : List (List Char × List Char)) => ([] : List Char)
        | _ :: _ => ',' :: ' ' :: paramsText t), ¬(c = rbrace) ∧ ¬(c = '\n') := by
      cases t with
      | nil => intro c hc; simp at hc
      | cons p2 t2 =>
        exact safe_cons ',' _ (by decide) (safe_cons ' ' _ (by decide)
          (ih (fun q hq => h q (List.mem_cons_of_mem pr hq))))
    refine safe_cons _ _ (by decide) ?_
    refine safe_append _ _ (okStrChar_scan pr.1 hpr.1) ?_
    refine safe_cons _ _ (by decide) ?_
    refine safe_cons _ _ (by decide) ?_
    refine safe_cons _ _ (by decide) ?_
    refine safe_cons _ _ (by decide) ?_
    refine safe_append _ _ (okStrChar_scan pr.2 hpr.2) ?_
    exact safe_cons _ _ (by decide) hsep

theorem callMid_safe (t : ToolSpec) (hok : okSpec t) :
    ∀ c ∈ callMid t, ¬(c = rbrace) ∧ ¬(c = '\n') := by
  unfold callMid
  refine safe_cons _ _ (by decide) ?_
  refine safe_append _ _ (by decide) ?_
  refine safe_cons _ _ (by decide) ?_
  refine safe_cons _ _ (by decide) ?_
  refine safe_cons _ _ (by decide) ?_
  refine safe_cons _ _ (by decide) ?_
  refine safe_append _ _ (okStrChar_scan t.name hok.1) ?_
  refine safe_cons _ _ (by decide) ?_
  refine safe_cons _ _ (by decide) ?_
  refine safe_cons _ _ (by decide) ?_
  refine safe_cons _ _ (by decide) ?_
  refine safe_append _ _ (by decide) ?_
  refine safe_cons _ _ (by decide) ?_
  refine safe_cons _ _ (by decide) ?_
  refine safe_cons _ _ (by decide) ?_
  refine safe_cons _ _ (by decide) ?_
  exact paramsText_safe t.params hok.2.1

theorem dumpsEntries_paramsText (ps : List (List Char × List Char))
    (h : ∀ pr ∈ ps, (∀ c ∈ pr.1, okStrChar c = true) ∧ (∀ c ∈ pr.2, okStrChar c = true)) :
    dumpsEntries (paramsPairs ps) = paramsText ps := by
  induction ps with
  | nil => rfl
  | cons pr t ih =>
    have hpr := h pr (List.mem_cons_self pr t)
    cases t with
    | nil =>
      rw [show paramsPairs [pr] = [(pr.1, Json.str pr.2)] from rfl, dumpsEntries_single,
        jsonDumps_str, escStr_ok _ hpr.1, escStr_ok _ hpr.2]
      simp [paramsText, List.append_assoc]
    | cons p2 t2 =>
      rw [show paramsPairs (pr :: p2 :: t2) =
          (pr.1, Json.str pr.2) :: ((p2.1, Json.str p2.2) :: paramsPairs t2) from rfl,
        dumpsEntries_cons2, jsonDumps_str, escStr_ok _ hpr.1, escStr_ok _ hpr.2,
        show ((p2.1, Json.str p2.2) :: paramsPairs t2) = paramsPairs (p2 :: t2) from rfl,
        ih (fun q hq => h q (List.mem_cons_of_mem pr hq))]
      simp [paramsText, List.append_assoc]

theorem callText_eq (t : ToolSpec) (hok : okSpec t) :
    jsonDumps (callVal t) = callText t := by
  have ename : (∀ c ∈ "name".toList, okStrChar c = true) := by decide
  have epar : (∀ c ∈ "parameters".toList, okStrChar c = true) := by decide
  rw [show callVal t = Json.obj [("name".toList, Json.str t.name),
      ("parameters".toList, Json.obj (paramsPairs t.params))] from rfl]
  rw [show jsonDumps (Json.obj [("name".toList, Json.str t.name),
      ("parameters".toList, Json.obj (paramsPairs t.params))]) =
    lbrace :: dumpsEntries [("name".toList, Json.str t.name),
      ("parameters".toList, Json.obj (paramsPairs t.params))] ++ [rbrace] from by
    simp only [jsonDumps]]
  rw [dumpsEntries_cons2, jsonDumps_str, dumpsEntries_single,
    show jsonDumps (Json.obj (paramsPairs t.params)) =
      lbrace :: dumpsEntries (paramsPairs t.params) ++ [rbrace] from by simp only [jsonDumps],
    dumpsEntries_paramsText t.params hok.2.1,
    escStr_ok _ ename, escStr_ok _ epar, escStr_ok _ hok.1]
  simp [callText, callMid, List.append_assoc]

theorem wsThenCloseBr_rb (Z : List Char) : wsThenCloseBr (rbrace :: Z) = none := rfl

theorem wsThenCloseBr_comma (Z : List Char) : wsThenCloseBr (',' :: Z) = none := rfl

theorem wsThenCloseBr_br (Z : List Char) : wsThenCloseBr (']' :: Z) = some ([']'], Z) := rfl

theorem lazyCloseA_rb_cont (l : List Char) (h : wsThenCloseBr l = none) :
    lazyCloseA (rbrace :: l) = (lazyCloseA l).map (rbrace :: ·) := by
  rw [lazyCloseA_cons, if_pos rfl, h]

theorem lazyCloseA_char_cont (c : Char) (l : List Char) (h1 : ¬(c = rbrace)) (h2 : ¬(c = '\n')) :
    lazyCloseA (c :: l) = (lazyCloseA l).map (c :: ·) := by
  rw [lazyCloseA_cons, if_neg h1, if_neg h2]

theorem lazyCloseA_accept (Z : List Char) :
    lazyCloseA (rbrace :: ']' :: Z) = some [rbrace, ']'] := by
  rw [lazyCloseA_cons, if_pos rfl, wsThenCloseBr_br]

theorem scan_calls (r : List ToolSpec) :
    ∀ (mid q : List Char),
      (∀ c ∈ mid, ¬(c = rbrace) ∧ ¬(c = '\n')) →
      (∀ u ∈ r, okSpec u) →
      lazyCloseA (mid ++ (rbrace :: rbrace :: (sepCallsText r ++ (']' :: q)))) =
        some (mid ++ (rbrace :: rbrace :: (sepCallsText r ++ [']']))) := by
  induction r with
  | nil =>
    intro mid q hmid _
    rw [show sepCallsText [] = ([] : List Char) from rfl]
    rw [show (([] : List Char) ++ (']' :: q)) = ']' :: q from rfl,
      show (([] : List Char) ++ [']']) = [']'] from rfl]
    rw [lazyCloseA_skip mid _ hmid, lazyCloseA_rb_cont _ (wsThenCloseBr_rb _),
      lazyCloseA_accept]
    rfl
  | cons t2 r2 ih =>
    intro mid q hmid hok
    have hok2 := hok t2 (List.mem_cons_self t2 r2)
    have hshL : sepCallsText (t2 :: r2) ++ (']' :: q) =
        ',' :: ' ' :: ((lbrace :: callMid t2) ++
          (rbrace :: rbrace :: (sepCallsText r2 ++ (']' :: q)))) := by
      simp [sepCallsText, callText, List.append_assoc]
    have hshR : sepCallsText (t2 :: r2) ++ [']'] =
        ',' :: ' ' :: ((lbrace :: callMid t2) ++
          (rbrace :: rbrace :: (sepCallsText r2 ++ [']']))) := by
      simp [sepCallsText, callText, List.append_assoc]
    rw [hshL, hshR]
    rw [lazyCloseA_skip mid _ hmid, lazyCloseA_rb_cont _ (wsThenCloseBr_rb _),
      lazyCloseA_rb_cont _ (wsThenCloseBr_comma _),
      lazyCloseA_char_cont ',' _ (by decide) (by decide),
      lazyCloseA_char_cont ' ' _ (by decide) (by decide),
      ih (lbrace :: callMid t2) q
        (safe_cons _ _ (by decide) (callMid_safe t2 hok2))
        (fun u hu => hok u (List.mem_cons_of_mem t2 hu))]
    simp

theorem dumpsElems_calls (r : List ToolSpec) :
    ∀ t : ToolSpec, okSpec t → (∀ u ∈ r, okSpec u) →
      dumpsElems ((t :: r).map callVal) = callText t ++ sepCallsText r := by
  induction r with
  | nil =>
    intro t hok _
    rw [show (([t] : List ToolSpec).map callVal) = [callVal t] from rfl,
      show dumpsElems [callVal t] = jsonDumps (callVal t) from by simp only [dumpsElems],
      callText_eq t hok]
    simp [sepCallsText]
  | cons t2 r2 ih =>
    intro t hok hokr
    rw [show ((t :: t2 :: r2).map callVal) = callVal t :: callVal t2 :: r2.map callVal from rfl,
      show dumpsElems (callVal t :: callVal t2 :: r2.map callVal) =
        jsonDumps (callVal t) ++ ',' :: ' ' :: dumpsElems (callVal t2 :: r2.map callVal) from by
        simp only [dumpsElems],
      show (callVal t2 :: r2.map callVal) = (t2 :: r2).map callVal from rfl,
      ih t2 (hokr t2 (List.mem_cons_self t2 r2)) (fun u hu => hokr u (List.mem_cons_of_mem t2 hu)),
      callText_eq t hok]
    simp [sepCallsText, List.append_assoc]

theorem callsText_shape (t : ToolSpec) (r : List ToolSpec) (hok : okSpec t)
    (hokr : ∀ u ∈ r, okSpec u) :
    jsonDumps (callsVal (t :: r)) = '[' :: ((callText t ++ sepCallsText r) ++ [']']) := by
  rw [show callsVal (t :: r) = Json.arr ((t :: r).map callVal) from rfl,
    show jsonDumps (Json.arr ((t :: r).map callVal)) =
      '[' :: dumpsElems ((t :: r).map callVal) ++ [']'] from by simp only [jsonDumps],
    dumpsElems_calls r t hok hokr]
  rfl

theorem matchArrAt_calls (t : ToolSpec) (r : List ToolSpec) (q : List Char)
    (hok : okSpec t) (hokr : ∀ u ∈ r, okSpec u) :
    matchArrAt (jsonDumps (callsVal (t :: r)) ++ q) = some (jsonDumps (callsVal (t :: r))) := by
  rw [callsText_shape t r hok hokr]
  have hcons : ('[' :: ((callText t ++ sepCallsText r) ++ [']'])) ++ q =
      '[' :: (lbrace :: (callMid t ++ (rbrace :: rbrace :: (sepCallsText r ++ (']' :: q))))) := by
    simp [callText, List.append_assoc]
  rw [hcons]
  rw [show matchArrAt ('[' :: (lbrace :: (callMid t ++
        (rbrace :: rbrace :: (sepCallsText r ++ (']' :: q)))))) =
      (lazyCloseA (callMid t ++ (rbrace :: rbrace :: (sepCallsText r ++ (']' :: q))))).map
        (fun m => '[' :: lbrace :: m) from rfl]
  rw [scan_calls r (callMid t) q (callMid_safe t hok) hokr]
  simp [callText, List.append_assoc]

theorem skipWs_paramsText (pr : List Char × List Char) (t : List (List Char × List Char))
    (Z : List Char) : skipWs (paramsText (pr :: t) ++ Z) = paramsText (pr :: t) ++ Z := rfl

theorem skipWs_callText (u : ToolSpec) (Z : List Char) :
    skipWs (callText u ++ Z) = callText u ++ Z := rfl

theorem callText_cons_append (u : ToolSpec) (Z : List Char) :
    callText u ++ Z = lbrace :: ((callMid u ++ [rbrace, rbrace]) ++ Z) := rfl

theorem paramsText_cons_append (pr : List Char × List Char) (t : List (List Char × List Char))
    (Z : List Char) :
    paramsText (pr :: t) ++ Z =
      '"' :: ((pr.1 ++ '"' :: ':' :: ' ' :: '"' :: (pr.2 ++ '"' ::
        (match t with
         | ([] : List (List Char × List Char)) => ([] : List Char)
         | _ :: _ => ',' :: ' ' :: paramsText t))) ++ Z) := rfl

theorem objSet_fresh (acc : List (List Char × Json)) (k : List Char) (v : Json)
    (h : ∀ kv ∈ acc, ¬(kv.1 = k)) : objSet acc k v = acc ++ [(k, v)] := by
  induction acc with
  | nil => rfl
  | cons kv t ih =>
    have h1 : ¬(kv.1 = k) := h kv (List.mem_cons_self kv t)
    show objSet ((kv.1, kv.2) :: t) k v = (kv :: t) ++ [(k, v)]
    rw [show objSet ((kv.1, kv.2) :: t) k v =
        (if kv.1 = k then (kv.1, v) :: t else (kv.1, kv.2) :: objSet t k v) from rfl,
      if_neg h1, ih (fun q hq => h q (List.mem_cons_of_mem kv hq))]
    rfl

theorem foldl_objSet_map (ps : List (List Char × List Char)) :
    ∀ acc : List (List Char × Json),
      (∀ pr ∈ ps, ∀ kv ∈ acc, ¬(kv.1 = pr.1)) →
      (ps.map Prod.fst).Nodup →
      ps.foldl (fun a pr => objSet a pr.1 (Json.str pr.2)) acc = acc ++ paramsPairs ps := by
  induction ps with
  | nil => intro acc _ _; simp [paramsPairs]
  | cons pr t ih =>
    intro acc hfresh hnd
    rw [List.map_cons, List.nodup_cons] at hnd
    have hfr : ∀ kv ∈ acc, ¬(kv.1 = pr.1) :=
      fun kv hkv => hfresh pr (List.mem_cons_self pr t) kv hkv
    have hfresh2 : ∀ q ∈ t, ∀ kv ∈ acc ++ [(pr.1, Json.str pr.2)], ¬(kv.1 = q.1) := by
      intro q hq kv hkv
      rcases List.mem_append.mp hkv with h1 | h2
      · exact hfresh q (List.mem_cons_of_mem pr hq) kv h1
      · have hkv2 : kv = (pr.1, Json.str pr.2) := by simpa using h2
        subst hkv2
        intro he
        exact hnd.1 (by rw [he]; exact List.mem_map_of_mem Prod.fst hq)
    rw [List.foldl_cons, objSet_fresh acc pr.1 _ hfr, ih _ hfresh2 hnd.2]
    simp [paramsPairs, List.append_assoc]

theorem parseEntries_paramsText (ps : List (List Char × List Char)) :
    ∀ (g : Nat) (acc : List (List Char × Json)) (R : List Char),
      ps ≠ [] →
      (∀ pr ∈ ps, (∀ c ∈ pr.1, okStrChar c = true) ∧ (∀ c ∈ pr.2, okStrChar c = true)) →
      parseEntries (g + 2 * ps.length) (paramsText ps ++ (rbrace :: R)) acc =
        some (Json.obj (ps.foldl (fun a pr => objSet a pr.1 (Json.str pr.2)) acc), R) := by
  induction ps with
  | nil => intro g acc R hne _; exact absurd rfl hne
  | cons pr t ih =>
    intro g acc R _ hok
    have hpr := hok pr (List.mem_cons_self pr t)
    cases t with
    | nil =>
      have hsh : paramsText [pr] ++ (rbrace :: R) =
          '"' :: (pr.1 ++ '"' :: (':' :: ' ' :: ('"' :: (pr.2 ++ '"' :: (rbrace :: R))))) := by
        simp [paramsText, List.append_assoc]
      rw [hsh, show g + 2 * ([pr] : List (List Char × List Char)).length = (g + 1) + 1 from rfl]
      rw [parseEntries_succ]
      dsimp only
      rw [if_pos rfl, parseStrBody_skip pr.1 _ hpr.1]
      dsimp only
      rw [skipWs_colon]
      dsimp only
      rw [if_pos rfl, skipWs_sp, skipWs_quote, parseValue_str g pr.2 _ hpr.2]
      dsimp only
      rw [skipWs_rb]
      dsimp only
      rw [if_neg (show ¬((rbrace : Char) = ',') from by decide), if_pos rfl]
      rfl
    | cons p2 t2 =>
      have hsh : paramsText (pr :: p2 :: t2) ++ (rbrace :: R) =
          '"' :: (pr.1 ++ '"' :: (':' :: ' ' :: ('"' :: (pr.2 ++ '"' ::
            (',' :: ' ' :: (paramsText (p2 :: t2) ++ (rbrace :: R))))))) := by
        simp [paramsText, List.append_assoc]
      rw [hsh, show g + 2 * ((pr :: p2 :: t2) : List (List Char × List Char)).length =
          ((g + 2 * ((p2 :: t2) : List (List Char × List Char)).length) + 1) + 1 from by
        simp [List.length_cons]; omega]
      rw [parseEntries_succ]
      dsimp only
      rw [if_pos rfl, parseStrBody_skip pr.1 _ hpr.1]
      dsimp only
      rw [skipWs_colon]
      dsimp only
      rw [if_pos rfl, skipWs_sp, skipWs_quote,
        parseValue_str (g + 2 * ((p2 :: t2) : List (List Char × List Char)).length) pr.2 _ hpr.2]
      dsimp only
      rw [skipWs_comma]
      dsimp only
      rw [if_pos rfl, skipWs_sp, skipWs_paramsText p2 t2 (rbrace :: R)]
      rw [show (g + 2 * ((p2 :: t2) : List (List Char × List Char)).length) + 1 =
          (g + 1) + 2 * ((p2 :: t2) : List (List Char × List Char)).length from by omega]
      rw [ih (g + 1) (objSet acc pr.1 (Json.str pr.2)) R (by simp)
        (fun q hq => hok q (List.mem_cons_of_mem pr hq))]
      rfl

theorem parseValue_paramsObj (g : Nat) (ps : List (List Char × List Char)) (R : List Char)
    (hok : ∀ pr ∈ ps, (∀ c ∈ pr.1, okStrChar c = true) ∧ (∀ c ∈ pr.2, okStrChar c = true))
    (hnd : (ps.map Prod.fst).Nodup) :
    parseValue (g + 2 * ps.length + 1) (lbrace :: (paramsText ps ++ (rbrace :: R))) =
      some (Json.obj (paramsPairs ps), R) := by
  cases ps with
  | nil =>
    rw [show paramsText [] ++ (rbrace :: R) = rbrace :: R from rfl,
      show g + 2 * ([] : List (List Char × List Char)).length + 1 = g + 1 from rfl]
    rw [parseValue_succ]
    dsimp only
    rw [if_pos rfl, skipWs_rb]
    dsimp only
    rw [if_pos rfl]
    rfl
  | cons pr t =>
    rw [paramsText_cons_append pr t (rbrace :: R)]
    rw [parseValue_succ]
    dsimp only
    rw [if_pos rfl, skipWs_quote]
    dsimp only
    rw [if_neg (show ¬(('"' : Char) = rbrace) from by decide)]
    rw [← paramsText_cons_append pr t (rbrace :: R)]
    rw [parseEntries_paramsText (pr :: t) g [] R (by simp) hok]
    rw [foldl_objSet_map (pr :: t) []
      (fun q hq kv hkv => absurd hkv (List.not_mem_nil kv)) hnd]
    rw [List.nil_append]

theorem parseValue_call (g : Nat) (t : ToolSpec) (R : List Char) (hok : okSpec t) :
    parseValue (g + 2 * t.params.length + 4)
        (lbrace :: (callMid t ++ (rbrace :: (rbrace :: R)))) =
      some (callVal t, R) := by
  have hsh : callMid t ++ (rbrace :: (rbrace :: R)) =
      '"' :: ("name".toList ++ '"' :: (':' :: ' ' :: ('"' :: (t.name ++ '"' ::
        (',' :: ' ' :: ('"' :: ("parameters".toList ++ '"' :: (':' :: ' ' ::
          (lbrace :: (paramsText t.params ++ (rbrace :: (rbrace :: R)))))))))))) := by
    simp [callMid, List.append_assoc]
  rw [hsh]
  rw [show g + 2 * t.params.length + 4 = (g + 2 * t.params.length + 3) + 1 from rfl]
  rw [parseValue_succ]
  dsimp only
  rw [if_pos rfl, skipWs_quote]
  dsimp only
  rw [if_neg (show ¬(('"' : Char) = rbrace) from by decide)]
  rw [show g + 2 * t.params.length + 3 = (g + 2 * t.params.length + 2) + 1 from rfl]
  rw [parseEntries_succ]
  dsimp only
  rw [if_pos rfl, parseStrBody_skip "name".toList _ (by decide)]
  dsimp only
  rw [skipWs_colon]
  dsimp only
  rw [if_pos rfl, skipWs_sp, skipWs_quote,
    parseValue_str (g + 2 * t.params.length + 1) t.name _ hok.1]
  dsimp only
  rw [skipWs_comma]
  dsimp only
  rw [if_pos rfl, skipWs_sp, skipWs_quote]
  rw [show g + 2 * t.params.length + 2 = (g + 2 * t.params.length + 1) + 1 from rfl]
  rw [parseEntries_succ]
  dsimp only
  rw [if_pos rfl, parseStrBody_skip "parameters".toList _ (by decide)]
  dsimp only
  rw [skipWs_colon]
  dsimp only
  rw [if_pos rfl, skipWs_sp, skipWs_lb]
  rw [parseValue_paramsObj g t.params (rbrace :: R) hok.2.1 hok.2.2]
  dsimp only
  rw [skipWs_rb]
  dsimp only
  rw [if_neg (show ¬((rbrace : Char) = ',') from by decide), if_pos rfl]
  rfl

theorem parseElems_calls (r : List ToolSpec) :
    ∀ (t : ToolSpec) (g : Nat) (acc : List Json) (R : List Char),
      okSpec t → (∀ u ∈ r, okSpec u) →
      parseElems (g + fuelOf (t :: r)) (callText t ++ (sepCallsText r ++ (']' :: R))) acc =
        some (Json.arr (acc ++ (t :: r).map callVal), R) := by
  induction r with
  | nil =>
    intro t g acc R hok _
    have hsh : callText t ++ (sepCallsText [] ++ (']' :: R)) =
        lbrace :: (callMid t ++ (rbrace :: (rbrace :: (']' :: R)))) := by
      simp [callText, sepCallsText, List.append_assoc]
    rw [hsh]
    rw [show g + fuelOf [t] = ((g + 1) + 2 * t.params.length + 4) + 1 from by
      simp [fuelOf]; omega]
    rw [parseElems_succ]
    rw [parseValue_call (g + 1) t (']' :: R) hok]
    dsimp only
    rw [skipWs_br]
    dsimp only
    rw [if_neg (show ¬((']' : Char) = ',') from by decide), if_pos rfl]
    rfl
  | cons t2 r2 ih =>
    intro t g acc R hok hokr
    have hok2 := hokr t2 (List.mem_cons_self t2 r2)
    have hsh : callText t ++ (sepCallsText (t2 :: r2) ++ (']' :: R)) =
        lbrace :: (callMid t ++ (rbrace :: (rbrace :: (',' :: ' ' ::
          (callText t2 ++ (sepCallsText r2 ++ (']' :: R))))))) := by
      simp [callText, sepCallsText, List.append_assoc]
    rw [hsh]
    rw [show g + fuelOf (t :: t2 :: r2) =
        (((g + fuelOf (t2 :: r2)) + 1) + 2 * t.params.length + 4) + 1 from by
      simp [fuelOf]; omega]
    rw [parseElems_succ]
    rw [parseValue_call ((g + fuelOf (t2 :: r2)) + 1) t _ hok]
    dsimp only
    rw [skipWs_comma]
    dsimp only
    rw [if_pos rfl, skipWs_sp, skipWs_callText t2 _]
    rw [show ((g + fuelOf (t2 :: r2)) + 1) + 2 * t.params.length + 4 =
        (g + 2 * t.params.length + 5) + fuelOf (t2 :: r2) from by omega]
    rw [ih t2 (g + 2 * t.params.length + 5) (acc ++ [callVal t]) R hok2
      (fun u hu => hokr u (List.mem_cons_of_mem t2 hu))]
    simp [List.append_assoc]

theorem parseValue_callsArr (f : Nat) (t : ToolSpec) (r : List ToolSpec)
    (hok : okSpec t) (hokr : ∀ u ∈ r, okSpec u) :
    parseValue (f + fuelOf (t :: r) + 2) (jsonDumps (callsVal (t :: r))) =
      some (callsVal (t :: r), []) := by
  rw [callsText_shape t r hok hokr]
  have hsh : (('[' : Char) :: ((callText t ++ sepCallsText r) ++ [']'])) =
      '[' :: (callText t ++ (sepCallsText r ++ (']' :: []))) := by
    simp [List.append_assoc]
  rw [hsh]
  rw [show f + fuelOf (t :: r) + 2 = (f + fuelOf (t :: r) + 1) + 1 from rfl]
  rw [parseValue_succ]
  dsimp only
  rw [if_neg (show ¬(('[' : Char) = lbrace) from by decide), if_pos rfl]
  rw [skipWs_callText t _, callText_cons_append t _]
  dsimp only
  rw [if_neg (show ¬((lbrace : Char) = ']') from by decide)]
  rw [← callText_cons_append t _]
  rw [show f + fuelOf (t :: r) + 1 = (f + 1) + fuelOf (t :: r) from by omega]
  rw [parseElems_calls r t (f + 1) [] [] hok hokr]
  simp [callsVal]

theorem paramsText_cons_len (pr : List Char × List Char) (t : List (List Char × List Char)) :
    (paramsText (pr :: t)).length =
      pr.1.length + pr.2.length + 6 +
        (match t with
         | ([] : List (List Char × List Char)) => 0
         | _ :: _ => 2 + (paramsText t).length) := by
  cases t with
  | nil =>
    simp [paramsText, List.length_append, List.length_cons]
    omega
  | cons p2 t2 =>
    simp [paramsText, List.length_append, List.length_cons]
    omega

theorem paramsText_len_ge (ps : List (List Char × List Char)) :
    2 * ps.length ≤ (paramsText ps).length := by
  induction ps with
  | nil => simp [paramsText]
  | cons pr t ih =>
    rw [paramsText_cons_len]
    cases t with
    | nil =>
      simp only [List.length_cons, List.length_nil]
      omega
    | cons p2 t2 =>
      dsimp only
      simp only [List.length_cons] at *
      omega

theorem callMid_len (t : ToolSpec) :
    (callMid t).length = 27 + t.name.length + (paramsText t.params).length := by
  simp [callMid, List.length_append, List.length_cons,
    show ("name".toList).length = 4 from rfl, show ("parameters".toList).length = 10 from rfl]
  omega

theorem callText_len (u : ToolSpec) :
    (callText u).length = 30 + u.name.length + (paramsText u.params).length := by
  simp [callText, List.length_append, List.length_cons, callMid_len]
  omega

theorem fuelOf_le_sep (r : List ToolSpec) : fuelOf r ≤ 2 * (sepCallsText r).length := by
  induction r with
  | nil => simp [fuelOf, sepCallsText]
  | cons u r2 ih =>
    have hct := callText_len u
    have hpt := paramsText_len_ge u.params
    simp only [fuelOf, sepCallsText, List.length_cons, List.length_append]
    omega

theorem fuelOf_le_dumps (t : ToolSpec) (r : List ToolSpec) (hok : okSpec t)
    (hokr : ∀ u ∈ r, okSpec u) :
    fuelOf (t :: r) ≤ 2 * (jsonDumps (callsVal (t :: r))).length := by
  rw [callsText_shape t r hok hokr]
  have hct := callText_len t
  have hpt := paramsText_len_ge t.params
  have hsep := fuelOf_le_sep r
  simp only [fuelOf, List.length_cons, List.length_append, List.length_nil]
  omega

theorem jsonLoads_calls (t : ToolSpec) (r : List ToolSpec) (hok : okSpec t)
    (hokr : ∀ u ∈ r, okSpec u) :
    jsonLoads (jsonDumps (callsVal (t :: r))) = some (callsVal (t :: r)) := by
  have hge := fuelOf_le_dumps t r hok hokr
  unfold jsonLoads
  have hsk : skipWs (jsonDumps (callsVal (t :: r))) = jsonDumps (callsVal (t :: r)) := by
    rw [callsText_shape t r hok hokr]
    rfl
  rw [hsk]
  rw [show 2 * (jsonDumps (callsVal (t :: r))).length + 2 =
      (2 * (jsonDumps (callsVal (t :: r))).length - fuelOf (t :: r)) + fuelOf (t :: r) + 2 from by
    omega]
  rw [parseValue_callsArr (2 * (jsonDumps (callsVal (t :: r))).length - fuelOf (t :: r)) t r
    hok hokr]
  rfl

/-- Claim C4 (amended): for every nonempty list of tool calls — each a name
with string parameter pairs having pairwise-distinct keys, every string over
characters that need no JSON escaping (no quote, backslash, or control
character) and are not the closing brace — whose canonical single-line
`json.dumps` serialization is embedded in prose whose text before the array
contains no `[`, `parse_json_format` returns exactly that serialization, and
`json.loads` on it recovers exactly the structured calls.  A `\x7d` inside a
string defeats the lazy array pattern (the scan closes the match early), and
arrays whose object region spans a newline are not recovered (`.` does not
match a newline, see the counterexample): such inputs fall back to the other
branches or the `"[]"` sentinel. -/
theorem c4_array_extraction (calls : List ToolSpec) (p q : List Char)
    (hne : calls ≠ []) (hok : ∀ t ∈ calls, okSpec t) (hp : '[' ∉ p) :
    parse_json_format (p ++ (jsonDumps (callsVal calls) ++ q)) = jsonDumps (callsVal calls)
    ∧ jsonLoads (jsonDumps (callsVal calls)) = some (callsVal calls) := by
  obtain ⟨t, r, rfl⟩ : ∃ t r, calls = t :: r := by
    cases calls with
    | nil => exact absurd rfl hne
    | cons t r => exact ⟨t, r, rfl⟩
  have hokt := hok t (List.mem_cons_self t r)
  have hokr : ∀ u ∈ r, okSpec u := fun u hu => hok u (List.mem_cons_of_mem t hu)
  have hload := jsonLoads_calls t r hokt hokr
  refine ⟨?_, hload⟩
  have hmatch := matchArrAt_calls t r q hokt hokr
  have hsearch : searchArr (p ++ (jsonDumps (callsVal (t :: r)) ++ q)) =
      some (jsonDumps (callsVal (t :: r))) := by
    rw [searchArr_skip p _ hp]
    have hcons : jsonDumps (callsVal (t :: r)) ++ q =
        '[' :: (((callText t ++ sepCallsText r) ++ [']']) ++ q) := by
      rw [callsText_shape t r hokt hokr]
      rfl
    rw [hcons]
    refine searchArr_cons_some '[' _ _ ?_
    rw [← hcons]
    exact hmatch
  unfold parse_json_format
  rw [hsearch]
  dsimp only
  rw [hload]

theorem c4_array_extraction_witness :
    (callsW4 ≠ [] ∧ (∀ t ∈ callsW4, okSpec t) ∧ '[' ∉ "Sure! ".toList) ∧
      (parse_json_format ("Sure! ".toList ++ (jsonDumps (callsVal callsW4) ++ " done".toList)) =
          jsonDumps (callsVal callsW4)
        ∧ jsonLoads (jsonDumps (callsVal callsW4)) = some (callsVal callsW4)) :=
  ⟨⟨by simp [callsW4], by decide, by decide⟩,
    c4_array_extraction callsW4 "Sure! ".toList " done".toList (by simp [callsW4])
      (by decide) (by decide)⟩
